import Mathlib

/-! Waitlist admission and admin service.

A shallow embedding of the waitlist handlers of the repository:

* `src/api/waitlist.js` and the `/api/waitlist` route of `src/server.js`
  (validation, duplicate checks, position assignment, insertion);
* `src/api/admin/waitlist.js` (`handleGet`, `handlePut`, `handleDelete`) and
  `src/api/admin/list.js` (paginated listing).

JavaScript strings are Lean strings, read as lists of characters when a regular
expression is tested on them.  The document store is a list of entries in
insertion order with a counter for the identifiers it hands out.  Every handler
returns its reply, the store afterwards and the list of store operations it
issued.  Clock readings (`new Date()`, `Date.now()`) are parameters, in
milliseconds, and so is the time zone of the host.
-/

namespace Waitlist

/-! ## Regular expressions

The handlers use three anchored patterns (`^...$`, no `m` flag), so that
`RegExp.prototype.test` is a match of the whole input.  `Regex` is the fragment
they are written in; `Regex.test` decides a whole-input match by derivatives. -/

/-- Regular expressions over characters; `cls p` is a character class. -/
inductive Regex where
  | never : Regex
  | empty : Regex
  | cls (p : Char → Bool) : Regex
  | alt (a b : Regex) : Regex
  | seq (a b : Regex) : Regex
  | star (a : Regex) : Regex

namespace Regex

/-- Whether the expression matches the empty input. -/
def nullable : Regex → Bool
  | never => false
  | empty => true
  | cls _ => false
  | alt a b => nullable a || nullable b
  | seq a b => nullable a && nullable b
  | star _ => true

/-- The expression matching what is left of a match after reading `c`. -/
def deriv : Regex → Char → Regex
  | never, _ => never
  | empty, _ => never
  | cls p, c => if p c then empty else never
  | alt a b, c => alt (deriv a c) (deriv b c)
  | seq a b, c =>
    if nullable a then alt (seq (deriv a c) b) (deriv b c) else seq (deriv a c) b
  | star a, c => seq (deriv a c) (star a)

/-- The anchored test `/^r$/.test(s)`: the whole of `s` matches `r`. -/
def test : Regex → List Char → Bool
  | r, [] => nullable r
  | r, c :: cs => test (deriv r c) cs

/-- The quantifier `+`. -/
def plus (a : Regex) : Regex := seq a (star a)

/-- The quantifier `?`. -/
def opt (a : Regex) : Regex := alt a empty

/-- The quantifier `{n}`. -/
def rep (a : Regex) : Nat → Regex
  | 0 => empty
  | n + 1 => seq a (rep a n)

/-- The quantifier `{m,n}`: `m` copies followed by `n - m` optional ones. -/
def repRange (a : Regex) (m n : Nat) : Regex := seq (rep a m) (rep (opt a) (n - m))

/-- A sequence of single-character classes, one for each character of a literal. -/
def literal (f : Char → Char → Bool) : List Char → Regex
  | [] => empty
  | c :: cs => seq (cls (f c)) (literal f cs)

end Regex

/-! ## Validation (`src/api/waitlist.js` lines 24-45, `src/server.js` lines 100-119) -/

/-- The class `\s` of ECMAScript: white space and line terminators. -/
def isWhiteSpace (c : Char) : Bool :=
  let n := c.toNat
  n == 9 || n == 10 || n == 11 || n == 12 || n == 13 || n == 32 || n == 160 ||
  n == 5760 || (8192 ≤ n && n ≤ 8202) || n == 8232 || n == 8233 || n == 8239 ||
  n == 8287 || n == 12288 || n == 65279

/-- The class `[^\s@]`. -/
def notSpaceAt (c : Char) : Bool := !(isWhiteSpace c || c == '@')

/-- The class `[A-Za-z0-9_]`, by code points: `A`-`Z` are 65-90, `a`-`z` are 97-122,
`0`-`9` are 48-57 and `_` is 95. -/
def isHandleChar (c : Char) : Bool :=
  let n := c.toNat
  (65 ≤ n && n ≤ 90) || (97 ≤ n && n ≤ 122) || (48 ≤ n && n ≤ 57) || n == 95

/-- The pattern `/^[^\s@]+@[^\s@]+\.[^\s@]+$/`. -/
def emailRegex : Regex :=
  .seq (.plus (.cls notSpaceAt))
    (.seq (.cls (· == '@'))
      (.seq (.plus (.cls notSpaceAt))
        (.seq (.cls (· == '.')) (.plus (.cls notSpaceAt)))))

/-- The pattern `/^[A-Za-z0-9_]{3,15}$/`. -/
def usernameRegex : Regex := .repRange (.cls isHandleChar) 3 15

/-- The email check: the negation of `!email || !/^[^\s@]+@[^\s@]+\.[^\s@]+$/.test(email)`.
A missing field and the empty string are both falsy, so both are the empty string here. -/
def validateEmail (email : String) : Bool :=
  !(email == "" || !emailRegex.test email.data)

/-- The username check: the negation of `!username || !/^[A-Za-z0-9_]{3,15}$/.test(username)`. -/
def validateUsername (username : String) : Bool :=
  !(username == "" || !usernameRegex.test username.data)

/-- The handle kept for a username:
`username.startsWith('@') ? username.substring(1) : username`. -/
def normalizeHandle (username : String) : String :=
  match username.data with
  | '@' :: rest => ⟨rest⟩
  | _ => username

/-- The handle check as the specification words it: with one optional leading `@`
removed, 3 to 15 characters, each of them a letter, a digit or an underscore. -/
def specValidateHandle (input : String) : Bool :=
  let rest := match input.data with
    | '@' :: r => r
    | r => r
  decide (3 ≤ rest.length) && decide (rest.length ≤ 15) && rest.all isHandleChar

/-- Characters that are pattern syntax in the source of a `RegExp`, by code points:
`^ $ \ . * + ? ( ) [ ] { } |`. -/
def isSyntaxChar (c : Char) : Bool :=
  [94, 36, 92, 46, 42, 43, 63, 40, 41, 91, 93, 123, 125, 124].contains c.toNat

/-- Case folding of the `i` flag on the letters `a`-`z`.  A pattern character from
`[A-Za-z0-9_]` matches an input character exactly when the two fold to the same
character: no character outside ASCII folds to an ASCII one. -/
def canonicalize (c : Char) : Char :=
  if 97 ≤ c.toNat ∧ c.toNat ≤ 122 then Char.ofNat (c.toNat - 32) else c

/-- The pattern ``new RegExp(`^${twitterHandle}$`, 'i')`` when the handle holds no
pattern syntax: every character stands for itself up to case.  `none` when it
does hold pattern syntax, which is not interpreted here; a username that passed
the check never does. -/
def compileHandlePattern (twitterHandle : List Char) : Option Regex :=
  if twitterHandle.any isSyntaxChar then none
  else some (Regex.literal (fun c x => canonicalize x == canonicalize c) twitterHandle)

/-- Equality of two handles ignoring the case of the letters `a`-`z`. -/
def sameIgnoringCase (a b : String) : Bool :=
  a.data.map canonicalize == b.data.map canonicalize

/-! ## Data model -/

/-- A waitlist record as persisted (`newEntry`, plus `_id` and `updatedAt`). -/
structure Entry where
  id : Nat
  email : String
  twitterHandle : String
  joinedAt : Nat
  status : String
  position : Nat
  source : String
  updatedAt : Option Nat
  deriving DecidableEq, Repr

/-- The collection: its documents in insertion order and the next identifier
the store hands out.  The handlers are read as sharing one collection: `WAITLIST_COLLECTION`
set, or the route of `src/server.js` together with the admin handlers, whose default name
`waitlist` is the same (the default of `src/api/waitlist.js` is `Early User Acquisition`). -/
structure Store where
  docs : List Entry
  nextId : Nat
  deriving DecidableEq, Repr

/-- The empty collection. -/
def Store.empty : Store := ⟨[], 0⟩

/-- The store operations a handler can issue. -/
inductive StoreOp where
  | connect | findOne | countDocuments | insertOne | find | updateOne | deleteOne
  deriving DecidableEq, Repr

/-- The JSON bodies the handlers send. -/
inductive Body where
  /-- The body `{ success: false, field, message }`. -/
  | fieldError (field message : String)
  /-- The body `{ success: true, message, data: { twitterHandle, position, joinedAt,
  estimatedAccessDate } }`; `estimatedAccessDate` is `none` for an Invalid Date, which is
  serialized as `null`. -/
  | joined (message twitterHandle : String) (position joinedAt : Nat)
    (estimatedAccessDate : Option Int)
  /-- The body `{ success: false, message }`. -/
  | failure (message : String)
  /-- The body `{ error }`. -/
  | error (error : String)
  /-- The body `{ success: true, message }`. -/
  | ok (message : String)
  /-- The body `{ entries, pagination: { total, page, limit, pages } }`; `pages` is `none`
  when `Math.ceil(total / limit)` is not a finite number. -/
  | listing (entries : List Entry) (total page limit : Nat) (pages : Option Nat)
  deriving DecidableEq, Repr

/-- A reply: `res.status(status).json(body)`. -/
structure Reply where
  status : Nat
  body : Body
  deriving DecidableEq, Repr

/-- What a handler leaves behind: its reply, the store and the store operations issued. -/
structure Outcome where
  reply : Reply
  store : Store
  ops : List StoreOp
  deriving DecidableEq, Repr

/-- The operation `collection.insertOne(doc)`: the document is appended under a fresh identifier. -/
def Store.insertOne (st : Store) (doc : Entry) : Store :=
  { docs := st.docs ++ [{ doc with id := st.nextId }], nextId := st.nextId + 1 }

/-- The operation `collection.updateOne({ _id }, { $set: { status, updatedAt } })` on the documents. -/
def updateFirst (id : Nat) (status : String) (now : Nat) : List Entry → List Entry
  | [] => []
  | e :: rest =>
    if e.id = id then { e with status := status, updatedAt := some now } :: rest
    else e :: updateFirst id status now rest

/-- The operation `collection.deleteOne({ _id })` on the documents. -/
def deleteFirst (id : Nat) : List Entry → List Entry
  | [] => []
  | e :: rest => if e.id = id then rest else e :: deleteFirst id rest

/-! ## Admission (`src/api/waitlist.js` lines 19-125, `src/server.js` lines 96-187) -/

/-- A request to the waitlist route: `req.body.email`, `req.body.username` and
`req.headers.referer`.  A missing value and the empty string are both falsy and
are both the empty string here. -/
structure Submission where
  email : String
  username : String
  referer : String
  deriving DecidableEq, Repr

/-- The local time zone of the host, in milliseconds: `offsetAt t` is the offset of local
time from UTC at the instant `t` (`LocalTime(t) = t + offsetAt t`), and `offsetOfLocal x` is
the offset the host takes off the local time value `x` to get an instant back
(`UTC(x) = x - offsetOfLocal x`). -/
structure Zone where
  offsetAt : Int → Int
  offsetOfLocal : Int → Int

/-- A host that keeps UTC. -/
def Zone.utc : Zone := ⟨fun _ => 0, fun _ => 0⟩

/-- An example of a zone with a daylight-saving change: one hour ahead of UTC until
the instant 864000000 (ten days after the epoch), two hours ahead from then on. -/
def Zone.springForward : Zone :=
  ⟨fun t => if t < 864000000 then 3600000 else 7200000,
    fun x => if x < 867600000 then 3600000 else 7200000⟩

/-- The clock of the host in a successful request: its readings in program order
(`joinedAt` of the new entry, `joinedAt` of the reply, and the current time the estimate
starts from) and its time zone. -/
structure Clock where
  entryAt : Nat
  replyAt : Nat
  estimateAt : Nat
  zone : Zone

/-- The two deployments of the admission route. -/
inductive Deployment where
  /-- The handler of `src/api/waitlist.js`. -/
  | serverless
  /-- The route of `src/server.js`. -/
  | express
  deriving DecidableEq, Repr

/-- Milliseconds in a day (`msPerDay` of ECMAScript). -/
def msPerDay : Nat := 24 * 60 * 60 * 1000

/-- The largest time value of a `Date`, in milliseconds on either side of the epoch. -/
def maxTime : Nat := 8640000000000000

/-- The operation `TimeClip` of ECMAScript: a time value out of the range of `Date` makes
an Invalid Date, `none` here. -/
def timeClip (t : Int) : Option Int :=
  if -(maxTime : Int) ≤ t ∧ t ≤ (maxTime : Int) then some t else none

/-- The helper `getEstimatedAccessDate(position)` of `src/api/waitlist.js`, `currentDate` being
its `new Date()`; `weeksToWait` is `Math.ceil(position / 100)`.  The call
`setDate(getDate() + n)` is `MakeDate(MakeDay(year, month, date + n), TimeWithinDay(local))`
on the local time of `currentDate`, that is the local time moved by `n` days, turned back into
an instant by `UTC` and passed through `TimeClip`. -/
def getEstimatedAccessDate (zone : Zone) (currentDate position : Nat) : Option Int :=
  let weeksToWait := (position + 99) / 100
  let localTime : Int := (currentDate : Int) + zone.offsetAt (currentDate : Int)
  let newDate : Int := localTime + ((weeksToWait * 7 : Nat) : Int) * (msPerDay : Int)
  timeClip (newDate - zone.offsetOfLocal newDate)

/-- The `estimatedAccessDate` of the reply: `getEstimatedAccessDate(position)` in
`src/api/waitlist.js`, `new Date(Date.now() + 30 * 24 * 60 * 60 * 1000)` in `src/server.js`. -/
def estimatedAccessDate : Deployment → Zone → Nat → Nat → Option Int
  | .serverless, zone, now, position => getEstimatedAccessDate zone now position
  | .express, _, now, _ => timeClip ((now : Int) + 30 * 24 * 60 * 60 * 1000)

/-- The reply to a submission whose email fails the check. -/
def invalidEmailReply : Reply :=
  ⟨400, .fieldError "email" "Please provide a valid email address"⟩

/-- The reply to a submission whose username fails the check. -/
def invalidHandleReply : Reply :=
  ⟨400, .fieldError "username"
    "Please provide a valid Twitter handle (3-15 characters, letters, numbers, and underscores only)"⟩

/-- The reply to a submission whose email is stored already. -/
def duplicateEmailReply : Reply :=
  ⟨409, .fieldError "email" "This email is already on our waitlist"⟩

/-- The reply to a submission whose handle is stored already. -/
def duplicateHandleReply : Reply :=
  ⟨409, .fieldError "username" "This Twitter handle is already on our waitlist"⟩

/-- The reply of the `catch` block of the admission route. -/
def serverErrorReply : Reply :=
  ⟨500, .failure "An error occurred while processing your request. Please try again later."⟩

/-- The `try` block of the admission route, the store operations all succeeding.  The
branch for a handle holding pattern syntax stands for the `catch` block; it is never taken,
the username having passed the check (`compileHandlePattern_of_valid`). -/
def admitSubmission (d : Deployment) (st : Store) (req : Submission) (clock : Clock) : Outcome :=
  if !validateEmail req.email then ⟨invalidEmailReply, st, []⟩
  else if !validateUsername req.username then ⟨invalidHandleReply, st, []⟩
  else
    let twitterHandle := normalizeHandle req.username
    match st.docs.find? (fun e => e.email == req.email) with
    | some _ => ⟨duplicateEmailReply, st, [.connect, .findOne]⟩
    | none =>
      match compileHandlePattern twitterHandle.data with
      | none => ⟨serverErrorReply, st, [.connect, .findOne]⟩
      | some pattern =>
        match st.docs.find? (fun e => pattern.test e.twitterHandle.data) with
        | some _ => ⟨duplicateHandleReply, st, [.connect, .findOne, .findOne]⟩
        | none =>
          let totalUsers := st.docs.length
          let position := totalUsers + 1
          let newEntry : Entry :=
            { id := st.nextId
              email := req.email
              twitterHandle := twitterHandle
              joinedAt := clock.entryAt
              status := "pending"
              position := position
              source := if req.referer == "" then "direct" else req.referer
              updatedAt := none }
          ⟨⟨200, .joined "Thank you for joining our waitlist!" twitterHandle position
              clock.replyAt (estimatedAccessDate d clock.zone clock.estimateAt position)⟩,
            st.insertOne newEntry,
            [.connect, .findOne, .findOne, .countDocuments, .insertOne]⟩

/-! ## Admin service (`src/api/admin/waitlist.js`, `src/api/admin/list.js`) -/

/-- The query of a listing: `page` and `limit` are the values `parseInt` reads from
the parameters when they are present, `status` is the empty string when absent. -/
structure ListQuery where
  page : Option Nat
  limit : Option Nat
  status : String
  deriving DecidableEq, Repr

/-- The filter `query`: `{}` when `status` is falsy, `{ status }` otherwise. -/
def matchesQuery (status : String) (e : Entry) : Bool :=
  if status == "" then true else e.status == status

/-- The cursor `.sort({ joinedAt: -1 })`: most recent first. -/
def sortByJoinedAtDesc (l : List Entry) : List Entry :=
  l.insertionSort (fun a b => b.joinedAt ≤ a.joinedAt)

/-- The reply of the `catch` blocks of the admin handlers. -/
def adminErrorReply : Reply := ⟨500, .error "An error occurred"⟩

/-- The function `handleGet` of `src/api/admin/waitlist.js`.  A negative `skip` is refused by
the store; `limit(0)` is no limit. -/
def handleGet (st : Store) (q : ListQuery) : Outcome :=
  let page := q.page.getD 1
  let limit := q.limit.getD 50
  let skip : Int := ((page : Int) - 1) * (limit : Int)
  let matching := st.docs.filter (matchesQuery q.status)
  let total := matching.length
  if skip < 0 then ⟨adminErrorReply, st, [.countDocuments, .find]⟩
  else
    let skipped := (sortByJoinedAtDesc matching).drop skip.toNat
    let entries := if limit = 0 then skipped else skipped.take limit
    let pages := if limit = 0 then none else some ((total + limit - 1) / limit)
    ⟨⟨200, .listing entries total page limit pages⟩, st, [.countDocuments, .find]⟩

/-- The `try` block of `src/api/admin/list.js`: the same listing, after connecting. -/
def adminList (st : Store) (q : ListQuery) : Outcome :=
  let o := handleGet st q
  { o with ops := .connect :: o.ops }

/-- The array `validStatuses` of `handlePut`. -/
def validStatuses : List String := ["pending", "approved", "rejected", "contacted"]

/-- The function `handlePut` of `src/api/admin/waitlist.js`.  `objectId` is the `ObjectId`
constructor of the database driver, `none` when it throws on a malformed identifier. -/
def handlePut (objectId : String → Option Nat) (st : Store) (id status : String)
    (now : Nat) : Outcome :=
  if id == "" || status == "" then ⟨⟨400, .error "Missing required fields"⟩, st, []⟩
  else if !validStatuses.contains status then ⟨⟨400, .error "Invalid status value"⟩, st, []⟩
  else
    match objectId id with
    | none => ⟨adminErrorReply, st, []⟩
    | some key =>
      if st.docs.any (fun e => e.id == key) then
        ⟨⟨200, .ok "Entry updated"⟩,
          { st with docs := updateFirst key status now st.docs }, [.updateOne]⟩
      else ⟨⟨404, .error "Entry not found"⟩, st, [.updateOne]⟩

/-- The reply of a successful `handleDelete`. -/
def deletedReply : Reply := ⟨200, .ok "Entry deleted"⟩

/-- The function `handleDelete` of `src/api/admin/waitlist.js`. -/
def handleDelete (objectId : String → Option Nat) (st : Store) (id : String) : Outcome :=
  if id == "" then ⟨⟨400, .error "Missing required field: id"⟩, st, []⟩
  else
    match objectId id with
    | none => ⟨adminErrorReply, st, []⟩
    | some key =>
      if st.docs.any (fun e => e.id == key) then
        ⟨deletedReply, { st with docs := deleteFirst key st.docs }, [.deleteOne]⟩
      else ⟨⟨404, .error "Entry not found"⟩, st, [.deleteOne]⟩

/-! ## Sequential runs -/

/-- One request to the service. -/
inductive Op where
  | submit (d : Deployment) (req : Submission) (clock : Clock)
  | updateStatus (id status : String) (now : Nat)
  | remove (id : String)

/-- The handler serving a request. -/
def step (objectId : String → Option Nat) (st : Store) : Op → Outcome
  | .submit d req clock => admitSubmission d st req clock
  | .updateStatus id status now => handlePut objectId st id status now
  | .remove id => handleDelete objectId st id

/-- A sequential run: the requests are served one after the other; the result is
the final store and the replies in order. -/
def run (objectId : String → Option Nat) : Store → List Op → Store × List Reply
  | st, [] => (st, [])
  | st, op :: rest =>
    let o := step objectId st op
    let r := run objectId o.store rest
    (r.1, o.reply :: r.2)

/-- The position a reply announces, when it is the reply to an admitted submission. -/
def Reply.assignedPosition (r : Reply) : Option Nat :=
  match r.body with
  | .joined _ _ position _ _ => some position
  | _ => none

/-- The positions assigned in a run, in the order of admission. -/
def assignedPositions (replies : List Reply) : List Nat :=
  replies.filterMap Reply.assignedPosition

/-- The value of a hexadecimal digit. -/
def hexDigit (c : Char) : Option Nat :=
  let n := c.toNat
  if 48 ≤ n ∧ n ≤ 57 then some (n - 48)
  else if 97 ≤ n ∧ n ≤ 102 then some (n - 87)
  else if 65 ≤ n ∧ n ≤ 70 then some (n - 55)
  else none

/-- An `ObjectId` constructor for examples: a string of 24 hexadecimal characters is read
as a number; any other string is taken to throw, as a string that is neither 12 nor 24
characters long does in the driver. -/
def hexObjectId (s : String) : Option Nat :=
  if s.data.length = 24 then
    s.data.foldl
      (fun acc c =>
        match acc, hexDigit c with
        | some n, some digit => some (16 * n + digit)
        | _, _ => none)
      (some 0)
  else none

/-! ## Failing store operations

Every store operation, connecting included, can throw.  `fails k` tells whether the
operation a request issues in position `k` (from 0) throws. -/

/-- What the caller of a module handler observes: a reply, or an exception that no `catch`
block of the handler took (the promise of the handler is rejected). -/
inductive Result where
  | replied (o : Outcome)
  | uncaught (store : Store) (ops : List StoreOp)
  deriving DecidableEq, Repr

/-- The statement `try { body } catch (error) { res.status(500).json(...) }` around a body
whose store operations are `body.ops`, its only write being the last of them: when an
operation throws, the body stops there with nothing written and the `catch` block replies. -/
def guarded (fails : Nat → Bool) (catchReply : Reply) (st : Store) (body : Outcome) : Outcome :=
  match (List.range body.ops.length).find? (fun k => fails k) with
  | none => body
  | some k => ⟨catchReply, st, body.ops.take (k + 1)⟩

/-- The handler of `src/api/waitlist.js` and the route of `src/server.js` on a `POST`:
the whole of the work, `connectToDatabase()` included, is inside the `try` block. -/
def waitlistRoute (fails : Nat → Bool) (d : Deployment) (st : Store) (req : Submission)
    (clock : Clock) : Result :=
  .replied (guarded fails serverErrorReply st (admitSubmission d st req clock))

/-- The handler of `src/api/admin/list.js` on an authorized `GET`: `connectToDatabase()`
and the queries are inside the `try` block. -/
def adminListRoute (fails : Nat → Bool) (st : Store) (q : ListQuery) : Result :=
  .replied (guarded fails adminErrorReply st (adminList st q))

/-- An authorized request to the handler of `src/api/admin/waitlist.js`, by method. -/
inductive AdminRequest where
  | get (q : ListQuery)
  | put (id status : String) (now : Nat)
  | delete (id : String)
  | other
  deriving DecidableEq, Repr

/-- The handler of `src/api/admin/waitlist.js` on an authorized request:
`await connectToDatabase()` stands before the `switch`, outside every `try` block; only the
bodies of `handleGet`, `handlePut` and `handleDelete` are inside one. -/
def adminWaitlistRoute (fails : Nat → Bool) (objectId : String → Option Nat) (st : Store)
    (request : AdminRequest) : Result :=
  if fails 0 then .uncaught st [.connect]
  else
    let later := fun k => fails (k + 1)
    let connected := fun (o : Outcome) => Result.replied { o with ops := .connect :: o.ops }
    match request with
    | .get q => connected (guarded later adminErrorReply st (handleGet st q))
    | .put id status now =>
      connected (guarded later adminErrorReply st (handlePut objectId st id status now))
    | .delete id => connected (guarded later adminErrorReply st (handleDelete objectId st id))
    | .other => connected ⟨⟨405, .error "Method Not Allowed"⟩, st, []⟩

end Waitlist
/-! ## Facts about the matcher -/

namespace Waitlist

namespace Regex

theorem test_never (s : List Char) : test never s = false := by
  induction s with
  | nil => rfl
  | cons c cs ih => simpa [test, deriv] using ih

theorem test_empty (s : List Char) : test empty s = true ↔ s = [] := by
  cases s with
  | nil => simp [test, nullable]
  | cons c cs => simp [test, deriv, test_never]

theorem test_cls (p : Char → Bool) (s : List Char) :
    test (cls p) s = true ↔ ∃ c, s = [c] ∧ p c = true := by
  cases s with
  | nil => simp [test, nullable]
  | cons c cs =>
    by_cases h : p c = true
    · simp only [test, deriv, h, if_true, test_empty]
      constructor
      · rintro rfl
        exact ⟨c, rfl, h⟩
      · rintro ⟨x, hx, _⟩
        exact (List.cons.inj hx).2
    · have hd : deriv (cls p) c = never := by simp [deriv, h]
      simp only [test, hd, test_never]
      constructor
      · intro hf
        exact absurd hf (by simp)
      · rintro ⟨x, hx, hp⟩
        rw [(List.cons.inj hx).1] at h
        exact absurd hp h

theorem test_alt (a b : Regex) (s : List Char) :
    test (alt a b) s = (test a s || test b s) := by
  induction s generalizing a b with
  | nil => rfl
  | cons c cs ih => simp [test, deriv, ih]

theorem test_seq (a b : Regex) (s : List Char) :
    test (seq a b) s = true ↔ ∃ u v, s = u ++ v ∧ test a u = true ∧ test b v = true := by
  induction s generalizing a with
  | nil =>
    simp only [test, nullable, Bool.and_eq_true]
    constructor
    · rintro ⟨ha, hb⟩
      exact ⟨[], [], rfl, ha, hb⟩
    · rintro ⟨u, v, huv, hu, hv⟩
      obtain ⟨rfl, rfl⟩ := List.append_eq_nil.mp huv.symm
      exact ⟨hu, hv⟩
  | cons c cs ih =>
    have step : test (seq a b) (c :: cs) = true ↔
        test (seq (deriv a c) b) cs = true ∨ (nullable a = true ∧ test (deriv b c) cs = true) := by
      by_cases hn : nullable a = true
      · simp [test, deriv, hn, test_alt]
      · simp [test, deriv, hn]
    rw [step, ih]
    constructor
    · rintro (⟨u, v, rfl, hu, hv⟩ | ⟨hn, hb⟩)
      · exact ⟨c :: u, v, rfl, hu, hv⟩
      · exact ⟨[], c :: cs, rfl, hn, hb⟩
    · rintro ⟨u, v, huv, hu, hv⟩
      cases u with
      | nil =>
        right
        simp only [List.nil_append] at huv
        subst huv
        exact ⟨hu, hv⟩
      | cons d u =>
        left
        simp only [List.cons_append, List.cons.injEq] at huv
        obtain ⟨rfl, rfl⟩ := huv
        exact ⟨u, v, rfl, hu, hv⟩

theorem test_star_cls (p : Char → Bool) (s : List Char) :
    test (star (cls p)) s = true ↔ ∀ c ∈ s, p c = true := by
  induction s with
  | nil => simp [test, nullable]
  | cons c cs ih =>
    have step : test (star (cls p)) (c :: cs) = test (seq (deriv (cls p) c) (star (cls p))) cs := rfl
    rw [step, test_seq]
    by_cases h : p c = true
    · simp only [deriv, h, if_true, test_empty, List.forall_mem_cons, true_and]
      constructor
      · rintro ⟨u, v, rfl, rfl, hv⟩
        exact ih.mp hv
      · intro hall
        exact ⟨[], cs, rfl, rfl, ih.mpr hall⟩
    · simp [deriv, h, test_never]

theorem test_plus_cls (p : Char → Bool) (s : List Char) :
    test (plus (cls p)) s = true ↔ s ≠ [] ∧ ∀ c ∈ s, p c = true := by
  unfold plus
  rw [test_seq]
  constructor
  · rintro ⟨u, v, rfl, hu, hv⟩
    obtain ⟨c, rfl, hc⟩ := (test_cls p u).mp hu
    refine ⟨by simp, ?_⟩
    intro x hx
    rcases List.mem_cons.mp hx with rfl | hx
    · exact hc
    · exact (test_star_cls p v).mp hv x hx
  · rintro ⟨hne, hall⟩
    cases s with
    | nil => exact absurd rfl hne
    | cons c cs =>
      refine ⟨[c], cs, rfl, (test_cls p [c]).mpr ⟨c, rfl, hall c (List.mem_cons_self _ _)⟩, ?_⟩
      exact (test_star_cls p cs).mpr fun x hx => hall x (List.mem_cons_of_mem _ hx)

theorem test_rep_cls (p : Char → Bool) (n : Nat) (s : List Char) :
    test (rep (cls p) n) s = true ↔ s.length = n ∧ ∀ c ∈ s, p c = true := by
  induction n generalizing s with
  | zero =>
    simp only [rep, test_empty]
    constructor
    · rintro rfl
      simp
    · rintro ⟨h, _⟩
      exact List.length_eq_zero.mp h
  | succ n ih =>
    simp only [rep, test_seq, test_cls]
    constructor
    · rintro ⟨u, v, rfl, ⟨c, rfl, hc⟩, hv⟩
      obtain ⟨hl, hall⟩ := (ih v).mp hv
      refine ⟨by simp [hl], ?_⟩
      intro x hx
      rcases List.mem_cons.mp hx with rfl | hx
      · exact hc
      · exact hall x hx
    · rintro ⟨hl, hall⟩
      cases s with
      | nil => simp at hl
      | cons c cs =>
        refine ⟨[c], cs, rfl, ⟨c, rfl, hall c (List.mem_cons_self _ _)⟩, (ih cs).mpr ⟨?_, ?_⟩⟩
        · simpa using hl
        · exact fun x hx => hall x (List.mem_cons_of_mem _ hx)

theorem test_rep_opt_cls (p : Char → Bool) (n : Nat) (s : List Char) :
    test (rep (opt (cls p)) n) s = true ↔ s.length ≤ n ∧ ∀ c ∈ s, p c = true := by
  induction n generalizing s with
  | zero =>
    simp only [rep, test_empty]
    constructor
    · rintro rfl
      simp
    · rintro ⟨h, _⟩
      exact List.length_eq_zero.mp (Nat.le_zero.mp h)
  | succ n ih =>
    simp only [rep, opt, test_seq, test_alt, Bool.or_eq_true, test_cls, test_empty]
    constructor
    · rintro ⟨u, v, rfl, (⟨c, rfl, hc⟩ | rfl), hv⟩
      · obtain ⟨hl, hall⟩ := (ih v).mp hv
        refine ⟨by simpa using hl, ?_⟩
        intro x hx
        rcases List.mem_cons.mp hx with rfl | hx
        · exact hc
        · exact hall x hx
      · obtain ⟨hl, hall⟩ := (ih v).mp hv
        exact ⟨by simpa using Nat.le_succ_of_le hl, by simpa using hall⟩
    · rintro ⟨hl, hall⟩
      cases s with
      | nil => exact ⟨[], [], rfl, Or.inr rfl, (ih []).mpr ⟨Nat.zero_le _, by simp⟩⟩
      | cons c cs =>
        refine ⟨[c], cs, rfl, Or.inl ⟨c, rfl, hall c (List.mem_cons_self _ _)⟩, (ih cs).mpr ⟨?_, ?_⟩⟩
        · simpa using hl
        · exact fun x hx => hall x (List.mem_cons_of_mem _ hx)

theorem test_repRange_cls (p : Char → Bool) (m n : Nat) (hmn : m ≤ n) (s : List Char) :
    test (repRange (cls p) m n) s = true ↔
      (m ≤ s.length ∧ s.length ≤ n) ∧ ∀ c ∈ s, p c = true := by
  unfold repRange
  rw [test_seq]
  constructor
  · rintro ⟨u, v, rfl, hu, hv⟩
    obtain ⟨hul, hua⟩ := (test_rep_cls p m u).mp hu
    obtain ⟨hvl, hva⟩ := (test_rep_opt_cls p (n - m) v).mp hv
    refine ⟨⟨by simp [hul], by simp only [List.length_append]; omega⟩, ?_⟩
    intro x hx
    rcases List.mem_append.mp hx with hx | hx
    · exact hua x hx
    · exact hva x hx
  · rintro ⟨⟨h1, h2⟩, hall⟩
    refine ⟨s.take m, s.drop m, (List.take_append_drop m s).symm, ?_, ?_⟩
    · exact (test_rep_cls p m _).mpr
        ⟨by simp [h1], fun x hx => hall x (List.mem_of_mem_take hx)⟩
    · exact (test_rep_opt_cls p (n - m) _).mpr
        ⟨by simp only [List.length_drop]; omega, fun x hx => hall x (List.mem_of_mem_drop hx)⟩

theorem test_literal (f : Char → Char → Bool) (h s : List Char) :
    test (literal f h) s = true ↔ List.Forall₂ (fun c x => f c x = true) h s := by
  induction h generalizing s with
  | nil =>
    simp only [literal, test_empty]
    constructor
    · rintro rfl
      exact List.Forall₂.nil
    · intro hf
      cases hf
      rfl
  | cons c cs ih =>
    simp only [literal, test_seq, test_cls]
    constructor
    · rintro ⟨u, v, rfl, ⟨x, rfl, hx⟩, hv⟩
      exact List.Forall₂.cons hx ((ih v).mp hv)
    · intro hf
      cases hf with
      | cons hx hrest => exact ⟨[_], _, rfl, ⟨_, rfl, hx⟩, (ih _).mpr hrest⟩

end Regex

end Waitlist

/-! ## Facts about the checks -/

namespace Waitlist

theorem validateEmail_eq (email : String) :
    validateEmail email = (!email.data.isEmpty && emailRegex.test email.data) := by
  unfold validateEmail
  have h : (email == "") = email.data.isEmpty := by
    cases email with
    | mk l =>
      cases l with
      | nil => rfl
      | cons c cs =>
        have : (String.mk (c :: cs) == "") = false := by
          rw [beq_eq_false_iff_ne]
          intro hc
          exact absurd (congrArg String.data hc) (by simp)
        simpa using this
  rw [h]
  cases email.data.isEmpty <;> cases emailRegex.test email.data <;> rfl

theorem validateUsername_iff (username : String) :
    validateUsername username = true ↔
      (3 ≤ username.data.length ∧ username.data.length ≤ 15) ∧
        ∀ c ∈ username.data, isHandleChar c = true := by
  unfold validateUsername usernameRegex
  have key := Regex.test_repRange_cls isHandleChar 3 15 (by decide) username.data
  constructor
  · intro hv
    simp only [Bool.not_eq_true', Bool.or_eq_false_iff, Bool.not_eq_false'] at hv
    exact key.mp hv.2
  · intro hs
    have ht := key.mpr hs
    have hne : (username == "") = false := by
      rw [beq_eq_false_iff_ne]
      rintro rfl
      simp at hs
    simp [ht, hne]

theorem isSyntaxChar_of_isHandleChar (c : Char) (h : isHandleChar c = true) :
    isSyntaxChar c = false := by
  unfold isHandleChar at h
  unfold isSyntaxChar
  simp only [Bool.or_eq_true, Bool.and_eq_true, decide_eq_true_eq, beq_iff_eq] at h
  simp only [List.contains, List.elem_eq_mem, decide_eq_false_iff_not, List.mem_cons,
    List.mem_singleton, List.not_mem_nil, or_false]
  omega

theorem normalizeHandle_of_valid (username : String) (h : validateUsername username = true) :
    normalizeHandle username = username := by
  have hall := ((validateUsername_iff username).mp h).2
  unfold normalizeHandle
  split
  · next rest hd =>
    have := hall '@' (by rw [hd]; exact List.mem_cons_self _ _)
    exact absurd this (by decide)
  · rfl

theorem compileHandlePattern_of_valid (username : String) (h : validateUsername username = true) :
    compileHandlePattern username.data =
      some (Regex.literal (fun c x => canonicalize x == canonicalize c) username.data) := by
  have hall := ((validateUsername_iff username).mp h).2
  unfold compileHandlePattern
  have hany : username.data.any isSyntaxChar = false := by
    rw [List.any_eq_false]
    intro c hc
    simp [isSyntaxChar_of_isHandleChar c (hall c hc)]
  simp [hany]

theorem forall₂_canonicalize (h s : List Char) :
    List.Forall₂ (fun c x => (canonicalize x == canonicalize c) = true) h s ↔
      s.map canonicalize = h.map canonicalize := by
  induction h generalizing s with
  | nil =>
    constructor
    · intro hf
      cases hf
      rfl
    · intro hm
      cases s with
      | nil => exact List.Forall₂.nil
      | cons x xs => simp at hm
  | cons c cs ih =>
    constructor
    · intro hf
      cases hf with
      | cons hx hrest =>
        simp only [List.map_cons, List.cons.injEq]
        exact ⟨by simpa using hx, (ih _).mp hrest⟩
    · intro hm
      cases s with
      | nil => simp at hm
      | cons x xs =>
        simp only [List.map_cons, List.cons.injEq] at hm
        exact List.Forall₂.cons (by simpa using hm.1) ((ih _).mpr hm.2)

theorem test_handlePattern (h : List Char) (t : String) :
    (Regex.literal (fun c x => canonicalize x == canonicalize c) h).test t.data =
      sameIgnoringCase t ⟨h⟩ := by
  unfold sameIgnoringCase
  rw [Bool.eq_iff_iff, Regex.test_literal, forall₂_canonicalize]
  simp

end Waitlist

/-! ## Facts about admission -/

namespace Waitlist

theorem admit_checks_failed_email (d : Deployment) (st : Store) (req : Submission) (clock : Clock)
    (h : validateEmail req.email = false) :
    admitSubmission d st req clock = ⟨invalidEmailReply, st, []⟩ := by
  simp [admitSubmission, h]

theorem admit_checks_failed_username (d : Deployment) (st : Store) (req : Submission)
    (clock : Clock) (he : validateEmail req.email = true)
    (h : validateUsername req.username = false) :
    admitSubmission d st req clock = ⟨invalidHandleReply, st, []⟩ := by
  simp [admitSubmission, he, h]

theorem admit_of_email_stored (d : Deployment) (st : Store) (req : Submission) (clock : Clock)
    (he : validateEmail req.email = true) (hu : validateUsername req.username = true)
    (hdup : ∃ e ∈ st.docs, e.email = req.email) :
    admitSubmission d st req clock = ⟨duplicateEmailReply, st, [.connect, .findOne]⟩ := by
  obtain ⟨e, hmem, heq⟩ := hdup
  have hsome : (st.docs.find? (fun e => e.email == req.email)).isSome = true := by
    rw [List.find?_isSome]
    exact ⟨e, hmem, by simpa using heq⟩
  obtain ⟨x, hx⟩ := Option.isSome_iff_exists.mp hsome
  simp [admitSubmission, he, hu, hx]

theorem admit_of_handle_stored (d : Deployment) (st : Store) (req : Submission) (clock : Clock)
    (he : validateEmail req.email = true) (hu : validateUsername req.username = true)
    (hfresh : ∀ e ∈ st.docs, e.email ≠ req.email)
    (hdup : ∃ e ∈ st.docs, sameIgnoringCase e.twitterHandle req.username = true) :
    admitSubmission d st req clock = ⟨duplicateHandleReply, st, [.connect, .findOne, .findOne]⟩ := by
  obtain ⟨e, hmem, heq⟩ := hdup
  have hnone : st.docs.find? (fun e => e.email == req.email) = none := by
    rw [List.find?_eq_none]
    intro x hx
    simpa using hfresh x hx
  have hsome : (st.docs.find? (fun e =>
      (Regex.literal (fun c x => canonicalize x == canonicalize c) req.username.data).test
        e.twitterHandle.data)).isSome = true := by
    rw [List.find?_isSome]
    exact ⟨e, hmem, by rw [test_handlePattern]; exact heq⟩
  obtain ⟨x, hx⟩ := Option.isSome_iff_exists.mp hsome
  simp [admitSubmission, he, hu, hnone, normalizeHandle_of_valid _ hu, compileHandlePattern_of_valid _ hu, hx]

theorem admit_of_fresh (d : Deployment) (st : Store) (req : Submission) (clock : Clock)
    (he : validateEmail req.email = true) (hu : validateUsername req.username = true)
    (hfresh : ∀ e ∈ st.docs, e.email ≠ req.email)
    (hnew : ∀ e ∈ st.docs, sameIgnoringCase e.twitterHandle req.username = false) :
    admitSubmission d st req clock =
      ⟨⟨200, .joined "Thank you for joining our waitlist!" req.username (st.docs.length + 1)
          clock.replyAt (estimatedAccessDate d clock.zone clock.estimateAt (st.docs.length + 1))⟩,
        ⟨st.docs ++ [⟨st.nextId, req.email, req.username, clock.entryAt, "pending",
          st.docs.length + 1, if req.referer = "" then "direct" else req.referer, none⟩],
          st.nextId + 1⟩,
        [.connect, .findOne, .findOne, .countDocuments, .insertOne]⟩ := by
  have hnone : st.docs.find? (fun e => e.email == req.email) = none := by
    rw [List.find?_eq_none]
    intro x hx
    simpa using hfresh x hx
  have hnone2 : st.docs.find? (fun e =>
      (Regex.literal (fun c x => canonicalize x == canonicalize c) req.username.data).test
        e.twitterHandle.data) = none := by
    rw [List.find?_eq_none]
    intro x hx
    rw [test_handlePattern]
    simpa using hnew x hx
  simp [admitSubmission, he, hu, hnone, normalizeHandle_of_valid _ hu, compileHandlePattern_of_valid _ hu,
    hnone2, Store.insertOne]

/-- The outcomes of a submission that passes both checks: one of three, decided by the store. -/
theorem admit_valid_cases (d : Deployment) (st : Store) (req : Submission) (clock : Clock)
    (he : validateEmail req.email = true) (hu : validateUsername req.username = true) :
    ((∃ e ∈ st.docs, e.email = req.email) ∧
        admitSubmission d st req clock = ⟨duplicateEmailReply, st, [.connect, .findOne]⟩) ∨
    ((∀ e ∈ st.docs, e.email ≠ req.email) ∧
        (∃ e ∈ st.docs, sameIgnoringCase e.twitterHandle req.username = true) ∧
        admitSubmission d st req clock = ⟨duplicateHandleReply, st, [.connect, .findOne, .findOne]⟩) ∨
    ((∀ e ∈ st.docs, e.email ≠ req.email) ∧
        (∀ e ∈ st.docs, sameIgnoringCase e.twitterHandle req.username = false) ∧
        admitSubmission d st req clock =
          ⟨⟨200, .joined "Thank you for joining our waitlist!" req.username (st.docs.length + 1)
              clock.replyAt (estimatedAccessDate d clock.zone clock.estimateAt (st.docs.length + 1))⟩,
            ⟨st.docs ++ [⟨st.nextId, req.email, req.username, clock.entryAt, "pending",
              st.docs.length + 1, if req.referer = "" then "direct" else req.referer, none⟩],
              st.nextId + 1⟩,
            [.connect, .findOne, .findOne, .countDocuments, .insertOne]⟩) := by
  by_cases h1 : ∃ e ∈ st.docs, e.email = req.email
  · exact Or.inl ⟨h1, admit_of_email_stored d st req clock he hu h1⟩
  · have hfresh : ∀ e ∈ st.docs, e.email ≠ req.email := fun e hm hc => h1 ⟨e, hm, hc⟩
    by_cases h2 : ∃ e ∈ st.docs, sameIgnoringCase e.twitterHandle req.username = true
    · exact Or.inr (Or.inl ⟨hfresh, h2, admit_of_handle_stored d st req clock he hu hfresh h2⟩)
    · have hnew : ∀ e ∈ st.docs, sameIgnoringCase e.twitterHandle req.username = false := by
        intro e hm
        cases hs : sameIgnoringCase e.twitterHandle req.username with
        | false => rfl
        | true => exact absurd ⟨e, hm, hs⟩ h2
      exact Or.inr (Or.inr ⟨hfresh, hnew, admit_of_fresh d st req clock he hu hfresh hnew⟩)

end Waitlist

namespace Waitlist

theorem notSpaceAt_iff (c : Char) :
    notSpaceAt c = true ↔ isWhiteSpace c = false ∧ c ≠ '@' := by
  unfold notSpaceAt
  cases isWhiteSpace c <;> simp

theorem emailRegex_test_iff (s : List Char) :
    emailRegex.test s = true ↔
      ∃ l a b, s = l ++ '@' :: (a ++ '.' :: b) ∧ l ≠ [] ∧ a ≠ [] ∧ b ≠ [] ∧
        (∀ c ∈ l, notSpaceAt c = true) ∧ (∀ c ∈ a, notSpaceAt c = true) ∧
        (∀ c ∈ b, notSpaceAt c = true) := by
  unfold emailRegex
  simp only [Regex.test_seq, Regex.test_plus_cls, Regex.test_cls, beq_iff_eq]
  constructor
  · rintro ⟨l, v, rfl, ⟨hl, hla⟩, u2, v2, rfl, ⟨c, rfl, rfl⟩, a, v3, rfl, ⟨ha, haa⟩,
      u4, b, rfl, ⟨c', rfl, rfl⟩, hb, hba⟩
    exact ⟨l, a, b, by simp, hl, ha, hb, hla, haa, hba⟩
  · rintro ⟨l, a, b, rfl, hl, ha, hb, hla, haa, hba⟩
    exact ⟨l, _, rfl, ⟨hl, hla⟩, ['@'], _, rfl, ⟨'@', rfl, rfl⟩, a, _, rfl, ⟨ha, haa⟩,
      ['.'], b, rfl, ⟨'.', rfl, rfl⟩, hb, hba⟩

end Waitlist

/-! ## Facts about the store operations and runs -/

namespace Waitlist

theorem sameIgnoringCase_iff (a b : String) :
    sameIgnoringCase a b = true ↔ a.data.map canonicalize = b.data.map canonicalize := by
  unfold sameIgnoringCase
  exact beq_iff_eq

theorem length_updateFirst (id : Nat) (status : String) (now : Nat) (l : List Entry) :
    (updateFirst id status now l).length = l.length := by
  induction l with
  | nil => rfl
  | cons e rest ih =>
    unfold updateFirst
    split
    · rfl
    · simp [ih]

theorem map_email_updateFirst (id : Nat) (status : String) (now : Nat) (l : List Entry) :
    (updateFirst id status now l).map Entry.email = l.map Entry.email := by
  induction l with
  | nil => rfl
  | cons e rest ih =>
    unfold updateFirst
    split
    · rfl
    · simp [ih]

theorem map_twitterHandle_updateFirst (id : Nat) (status : String) (now : Nat)
    (l : List Entry) :
    (updateFirst id status now l).map Entry.twitterHandle = l.map Entry.twitterHandle := by
  induction l with
  | nil => rfl
  | cons e rest ih =>
    unfold updateFirst
    split
    · rfl
    · simp [ih]

theorem status_of_mem_updateFirst (id : Nat) (status : String) (now : Nat) (l : List Entry)
    (e : Entry) (h : e ∈ updateFirst id status now l) :
    e.status = status ∨ e ∈ l := by
  induction l with
  | nil => simp [updateFirst] at h
  | cons x rest ih =>
    unfold updateFirst at h
    split at h
    · rcases List.mem_cons.mp h with rfl | h
      · exact Or.inl rfl
      · exact Or.inr (List.mem_cons_of_mem _ h)
    · rcases List.mem_cons.mp h with rfl | h
      · exact Or.inr (List.mem_cons_self _ _)
      · rcases ih h with h | h
        · exact Or.inl h
        · exact Or.inr (List.mem_cons_of_mem _ h)

theorem deleteFirst_sublist (id : Nat) (l : List Entry) : (deleteFirst id l).Sublist l := by
  induction l with
  | nil => exact List.Sublist.slnil
  | cons e rest ih =>
    unfold deleteFirst
    split
    · exact List.sublist_cons_self _ _
    · exact ih.cons₂ _

/-- The store after `handlePut`: untouched, or one entry given a valid status. -/
theorem handlePut_store (objectId : String → Option Nat) (st : Store) (id status : String)
    (now : Nat) :
    (handlePut objectId st id status now).store = st ∨
      ∃ key, status ∈ validStatuses ∧
        (handlePut objectId st id status now).store =
          { st with docs := updateFirst key status now st.docs } := by
  unfold handlePut
  split
  · exact Or.inl rfl
  · split
    · exact Or.inl rfl
    · next hvalid =>
      split
      · exact Or.inl rfl
      · next key _ =>
        split
        · refine Or.inr ⟨key, ?_, rfl⟩
          simpa using hvalid
        · exact Or.inl rfl

theorem handlePut_assignedPosition (objectId : String → Option Nat) (st : Store)
    (id status : String) (now : Nat) :
    (handlePut objectId st id status now).reply.assignedPosition = none := by
  unfold handlePut
  split
  · rfl
  · split
    · rfl
    · split
      · rfl
      · split <;> rfl

/-- The store after `handleDelete`: untouched, or one entry gone together with the
reply of a deletion. -/
theorem handleDelete_store (objectId : String → Option Nat) (st : Store) (id : String) :
    (handleDelete objectId st id).store = st ∨
      ∃ key, (handleDelete objectId st id).reply = deletedReply ∧
        (handleDelete objectId st id).store = { st with docs := deleteFirst key st.docs } := by
  unfold handleDelete
  split
  · exact Or.inl rfl
  · split
    · exact Or.inl rfl
    · next key _ =>
      split
      · exact Or.inr ⟨key, rfl, rfl⟩
      · exact Or.inl rfl

theorem handleDelete_assignedPosition (objectId : String → Option Nat) (st : Store)
    (id : String) :
    (handleDelete objectId st id).reply.assignedPosition = none := by
  unfold handleDelete
  split
  · rfl
  · split
    · rfl
    · split <;> rfl

/-- The outcomes of a submission: refused with the store untouched and no position
assigned, or admitted into a store that held neither its email nor its handle. -/
theorem admit_cases (d : Deployment) (st : Store) (req : Submission) (clock : Clock) :
    ((admitSubmission d st req clock).store = st ∧ (admitSubmission d st req clock).reply.status ≠ 200 ∧
        (admitSubmission d st req clock).reply.assignedPosition = none) ∨
    (validateEmail req.email = true ∧ validateUsername req.username = true ∧
        (∀ e ∈ st.docs, e.email ≠ req.email) ∧
        (∀ e ∈ st.docs, sameIgnoringCase e.twitterHandle req.username = false) ∧
        admitSubmission d st req clock =
          ⟨⟨200, .joined "Thank you for joining our waitlist!" req.username (st.docs.length + 1)
              clock.replyAt (estimatedAccessDate d clock.zone clock.estimateAt (st.docs.length + 1))⟩,
            ⟨st.docs ++ [⟨st.nextId, req.email, req.username, clock.entryAt, "pending",
              st.docs.length + 1, if req.referer = "" then "direct" else req.referer, none⟩],
              st.nextId + 1⟩,
            [.connect, .findOne, .findOne, .countDocuments, .insertOne]⟩) := by
  cases he : validateEmail req.email with
  | false =>
    left
    rw [admit_checks_failed_email d st req clock he]
    exact ⟨rfl, by simp [invalidEmailReply, invalidHandleReply, duplicateEmailReply, duplicateHandleReply], rfl⟩
  | true =>
    cases hu : validateUsername req.username with
    | false =>
      left
      rw [admit_checks_failed_username d st req clock he hu]
      exact ⟨rfl, by simp [invalidEmailReply, invalidHandleReply, duplicateEmailReply, duplicateHandleReply], rfl⟩
    | true =>
      rcases admit_valid_cases d st req clock he hu with ⟨_, h⟩ | ⟨_, _, h⟩ | ⟨h1, h2, h⟩
      · left
        rw [h]
        exact ⟨rfl, by simp [invalidEmailReply, invalidHandleReply, duplicateEmailReply, duplicateHandleReply], rfl⟩
      · left
        rw [h]
        exact ⟨rfl, by simp [invalidEmailReply, invalidHandleReply, duplicateEmailReply, duplicateHandleReply], rfl⟩
      · exact Or.inr ⟨rfl, rfl, h1, h2, h⟩

/-- A property of the documents kept by every handler holds after every run. -/
theorem run_preserves (P : List Entry → Prop) (objectId : String → Option Nat)
    (hsubmit : ∀ d st req clock, P st.docs → P (admitSubmission d st req clock).store.docs)
    (hput : ∀ st id status now, P st.docs → P (handlePut objectId st id status now).store.docs)
    (hdel : ∀ st id, P st.docs → P (handleDelete objectId st id).store.docs) :
    ∀ (ops : List Op) (st : Store), P st.docs → P (run objectId st ops).1.docs := by
  intro ops
  induction ops with
  | nil => intro st h; exact h
  | cons op rest ih =>
    intro st h
    simp only [run]
    apply ih
    cases op with
    | submit d req clock => exact hsubmit d st req clock h
    | updateStatus id status now => exact hput st id status now h
    | remove id => exact hdel st id h

theorem run_emails_distinct (objectId : String → Option Nat) (ops : List Op) (st : Store)
    (h : st.docs.Pairwise (fun a b => a.email ≠ b.email)) :
    (run objectId st ops).1.docs.Pairwise (fun a b => a.email ≠ b.email) := by
  refine run_preserves (fun l => l.Pairwise (fun a b => a.email ≠ b.email)) objectId
    ?_ ?_ ?_ ops st h
  · intro d st req clock hp
    rcases admit_cases d st req clock with ⟨hs, _⟩ | ⟨_, _, hfresh, _, hadm⟩
    · rw [hs]; exact hp
    · rw [hadm]
      simp only [List.pairwise_append, List.pairwise_singleton, List.mem_singleton, forall_eq,
        and_true, true_and]
      exact ⟨hp, fun e he => hfresh e he⟩
  · intro st id status now hp
    rcases handlePut_store objectId st id status now with hs | ⟨key, _, hs⟩
    · rw [hs]; exact hp
    · rw [hs]
      have := map_email_updateFirst key status now st.docs
      have hp' : (st.docs.map Entry.email).Pairwise (· ≠ ·) := List.pairwise_map.mpr hp
      rw [← this] at hp'
      exact List.pairwise_map.mp hp'
  · intro st id hp
    rcases handleDelete_store objectId st id with hs | ⟨key, _, hs⟩
    · rw [hs]; exact hp
    · rw [hs]
      exact hp.sublist (deleteFirst_sublist key st.docs)

theorem run_handles_distinct (objectId : String → Option Nat) (ops : List Op) (st : Store)
    (h : st.docs.Pairwise
      (fun a b => sameIgnoringCase a.twitterHandle b.twitterHandle = false)) :
    (run objectId st ops).1.docs.Pairwise
      (fun a b => sameIgnoringCase a.twitterHandle b.twitterHandle = false) := by
  refine run_preserves
    (fun l => l.Pairwise (fun a b => sameIgnoringCase a.twitterHandle b.twitterHandle = false))
    objectId ?_ ?_ ?_ ops st h
  · intro d st req clock hp
    rcases admit_cases d st req clock with ⟨hs, _⟩ | ⟨_, _, _, hnew, hadm⟩
    · rw [hs]; exact hp
    · rw [hadm]
      simp only [List.pairwise_append, List.pairwise_singleton, List.mem_singleton, forall_eq,
        and_true, true_and]
      exact ⟨hp, fun e he => hnew e he⟩
  · intro st id status now hp
    rcases handlePut_store objectId st id status now with hs | ⟨key, _, hs⟩
    · rw [hs]; exact hp
    · rw [hs]
      have := map_twitterHandle_updateFirst key status now st.docs
      have hp' : (st.docs.map Entry.twitterHandle).Pairwise
          (fun a b => sameIgnoringCase a b = false) := List.pairwise_map.mpr hp
      rw [← this] at hp'
      exact List.pairwise_map.mp hp'
  · intro st id hp
    rcases handleDelete_store objectId st id with hs | ⟨key, _, hs⟩
    · rw [hs]; exact hp
    · rw [hs]
      exact hp.sublist (deleteFirst_sublist key st.docs)

theorem run_statuses_valid (objectId : String → Option Nat) (ops : List Op) (st : Store)
    (h : ∀ e ∈ st.docs, e.status ∈ validStatuses) :
    ∀ e ∈ (run objectId st ops).1.docs, e.status ∈ validStatuses := by
  refine run_preserves (fun l => ∀ e ∈ l, e.status ∈ validStatuses) objectId ?_ ?_ ?_ ops st h
  · intro d st req clock hp
    rcases admit_cases d st req clock with ⟨hs, _⟩ | ⟨_, _, _, _, hadm⟩
    · rw [hs]; exact hp
    · rw [hadm]
      intro e he
      rcases List.mem_append.mp he with he | he
      · exact hp e he
      · rw [List.mem_singleton] at he
        rw [he]
        simp [validStatuses]
  · intro st id status now hp
    rcases handlePut_store objectId st id status now with hs | ⟨key, hvalid, hs⟩
    · rw [hs]; exact hp
    · rw [hs]
      intro e he
      rcases status_of_mem_updateFirst key status now st.docs e he with h1 | h1
      · rw [h1]; exact hvalid
      · exact hp e h1
  · intro st id hp
    rcases handleDelete_store objectId st id with hs | ⟨key, _, hs⟩
    · rw [hs]; exact hp
    · rw [hs]
      intro e he
      exact hp e ((deleteFirst_sublist key st.docs).subset he)

/-- Positions in a run in which no deletion succeeds: each is above the number of entries
stored when the run starts, and they increase. -/
theorem run_positions_increase (objectId : String → Option Nat) :
    ∀ (ops : List Op) (st : Store),
      (∀ r ∈ (run objectId st ops).2, r ≠ deletedReply) →
      (assignedPositions (run objectId st ops).2).Pairwise (· < ·) ∧
        ∀ p ∈ assignedPositions (run objectId st ops).2, st.docs.length < p := by
  intro ops
  induction ops with
  | nil =>
    intro st _
    exact ⟨List.Pairwise.nil, by simp [run, assignedPositions]⟩
  | cons op rest ih =>
    intro st hno
    simp only [run, List.mem_cons, forall_eq_or_imp] at hno
    obtain ⟨hhead, htail⟩ := hno
    obtain ⟨ihp, ihb⟩ := ih (step objectId st op).store htail
    have hskip : (step objectId st op).reply.assignedPosition = none →
        (step objectId st op).store.docs.length = st.docs.length →
        (assignedPositions (run objectId st (op :: rest)).2).Pairwise (· < ·) ∧
          ∀ p ∈ assignedPositions (run objectId st (op :: rest)).2, st.docs.length < p := by
      intro hnone hlen
      have : assignedPositions (run objectId st (op :: rest)).2 =
          assignedPositions (run objectId (step objectId st op).store rest).2 := by
        simp [run, assignedPositions, List.filterMap_cons, hnone]
      rw [this]
      exact ⟨ihp, fun p hp => hlen ▸ ihb p hp⟩
    cases op with
    | submit d req clock =>
      rcases admit_cases d st req clock with ⟨hs, _, hnone⟩ | ⟨_, _, _, _, hadm⟩
      · exact hskip hnone (by simp only [step]; rw [hs])
      · have hstore : (step objectId st (.submit d req clock)).store.docs.length =
            st.docs.length + 1 := by
          simp only [step]; rw [hadm]; simp
        have hpos : (step objectId st (.submit d req clock)).reply.assignedPosition =
            some (st.docs.length + 1) := by
          simp only [step]; rw [hadm]; rfl
        have : assignedPositions (run objectId st (.submit d req clock :: rest)).2 =
            (st.docs.length + 1) ::
              assignedPositions (run objectId (step objectId st (.submit d req clock)).store rest).2 := by
          simp [run, assignedPositions, List.filterMap_cons, hpos]
        rw [this]
        refine ⟨List.Pairwise.cons ?_ ihp, ?_⟩
        · intro p hp
          have := ihb p hp
          omega
        · intro p hp
          rcases List.mem_cons.mp hp with rfl | hp
          · omega
          · have := ihb p hp
            omega
    | updateStatus id status now =>
      apply hskip (handlePut_assignedPosition objectId st id status now)
      simp only [step]
      rcases handlePut_store objectId st id status now with hs | ⟨key, _, hs⟩
      · rw [hs]
      · rw [hs]; exact length_updateFirst key status now st.docs
    | remove id =>
      apply hskip (handleDelete_assignedPosition objectId st id)
      simp only [step]
      rcases handleDelete_store objectId st id with hs | ⟨key, hr, _⟩
      · rw [hs]
      · exact absurd hr (by simpa [step] using hhead)

end Waitlist

/-! ## Facts about rounding up and listing -/

namespace Waitlist

/-- Rounding a quotient of naturals up, as `Math.ceil(t / l)` does, in integer arithmetic. -/
theorem ceil_div_eq (t l : Nat) (hl : 0 < l) : (t + l - 1) / l = ⌈(t : ℚ) / (l : ℚ)⌉₊ := by
  have hlq : (0 : ℚ) < (l : ℚ) := by exact_mod_cast hl
  apply le_antisymm
  · have h1 : (t : ℚ) / (l : ℚ) ≤ (⌈(t : ℚ) / (l : ℚ)⌉₊ : ℚ) := Nat.le_ceil _
    have h2 : (t : ℚ) ≤ (⌈(t : ℚ) / (l : ℚ)⌉₊ : ℚ) * (l : ℚ) := (div_le_iff₀ hlq).mp h1
    have h3 : t ≤ ⌈(t : ℚ) / (l : ℚ)⌉₊ * l := by exact_mod_cast h2
    rw [← Nat.lt_succ_iff, Nat.div_lt_iff_lt_mul hl, Nat.succ_mul]
    omega
  · rw [Nat.ceil_le, div_le_iff₀ hlq]
    have h := Nat.div_add_mod (t + l - 1) l
    have hm := Nat.mod_lt (t + l - 1) hl
    have h3 : t ≤ (t + l - 1) / l * l := by
      rw [Nat.mul_comm]
      omega
    exact_mod_cast h3

theorem filter_matchesQuery (status : String) (l : List Entry) :
    l.filter (matchesQuery status) =
      l.filter (fun e => decide (status = "" ∨ e.status = status)) := by
  apply List.filter_congr
  intro e _
  unfold matchesQuery
  by_cases h : status = ""
  · simp [h]
  · simp only [beq_iff_eq, h, if_false, false_or]
    by_cases hs : e.status = status
    · simp [hs]
    · simp [hs]

theorem sortByJoinedAtDesc_perm (l : List Entry) : (sortByJoinedAtDesc l).Perm l :=
  List.perm_insertionSort _ l

theorem sortByJoinedAtDesc_sorted (l : List Entry) :
    (sortByJoinedAtDesc l).Sorted (fun a b => b.joinedAt ≤ a.joinedAt) := by
  haveI : IsTotal Entry (fun a b => b.joinedAt ≤ a.joinedAt) :=
    ⟨fun a b => Nat.le_total b.joinedAt a.joinedAt⟩
  haveI : IsTrans Entry (fun a b => b.joinedAt ≤ a.joinedAt) :=
    ⟨fun _ _ _ hab hbc => Nat.le_trans hbc hab⟩
  exact List.sorted_insertionSort _ l

end Waitlist

/-! ## Facts about updates, removals and failing operations -/

namespace Waitlist

theorem map_id_updateFirst (id : Nat) (status : String) (now : Nat) (l : List Entry) :
    (updateFirst id status now l).map Entry.id = l.map Entry.id := by
  induction l with
  | nil => rfl
  | cons e rest ih =>
    unfold updateFirst
    split
    · rfl
    · simp [ih]

theorem updateFirst_split (key : Nat) (status : String) (now : Nat) (l : List Entry)
    (h : ∃ e ∈ l, e.id = key) :
    ∃ pre e post, l = pre ++ e :: post ∧ e.id = key ∧ (∀ x ∈ pre, x.id ≠ key) ∧
      updateFirst key status now l =
        pre ++ { e with status := status, updatedAt := some now } :: post := by
  induction l with
  | nil =>
    obtain ⟨e, hm, _⟩ := h
    simp at hm
  | cons x rest ih =>
    by_cases hx : x.id = key
    · refine ⟨[], x, rest, rfl, hx, by simp, ?_⟩
      simp [updateFirst, hx]
    · have hrest : ∃ e ∈ rest, e.id = key := by
        obtain ⟨e, hm, he⟩ := h
        rcases List.mem_cons.mp hm with rfl | hm
        · exact absurd he hx
        · exact ⟨e, hm, he⟩
      obtain ⟨pre, e, post, hl, he, hpre, hup⟩ := ih hrest
      refine ⟨x :: pre, e, post, by simp [hl], he, ?_, ?_⟩
      · intro y hy
        rcases List.mem_cons.mp hy with rfl | hy
        · exact hx
        · exact hpre y hy
      · simp [updateFirst, hx, hup]

theorem deleteFirst_split (key : Nat) (l : List Entry) (h : ∃ e ∈ l, e.id = key) :
    ∃ pre e post, l = pre ++ e :: post ∧ e.id = key ∧ (∀ x ∈ pre, x.id ≠ key) ∧
      deleteFirst key l = pre ++ post := by
  induction l with
  | nil =>
    obtain ⟨e, hm, _⟩ := h
    simp at hm
  | cons x rest ih =>
    by_cases hx : x.id = key
    · refine ⟨[], x, rest, rfl, hx, by simp, ?_⟩
      simp [deleteFirst, hx]
    · have hrest : ∃ e ∈ rest, e.id = key := by
        obtain ⟨e, hm, he⟩ := h
        rcases List.mem_cons.mp hm with rfl | hm
        · exact absurd he hx
        · exact ⟨e, hm, he⟩
      obtain ⟨pre, e, post, hl, he, hpre, hdel⟩ := ih hrest
      refine ⟨x :: pre, e, post, by simp [hl], he, ?_, ?_⟩
      · intro y hy
        rcases List.mem_cons.mp hy with rfl | hy
        · exact hx
        · exact hpre y hy
      · simp [deleteFirst, hx, hdel]

theorem deleteFirst_no_id (key : Nat) (l : List Entry) (hnodup : (l.map Entry.id).Nodup) :
    ∀ x ∈ deleteFirst key l, x.id ≠ key := by
  induction l with
  | nil => simp [deleteFirst]
  | cons e rest ih =>
    simp only [List.map_cons, List.nodup_cons, List.mem_map, not_exists, not_and] at hnodup
    by_cases he : e.id = key
    · simp only [deleteFirst, he, if_true]
      intro x hx hxe
      exact hnodup.1 x hx (hxe.trans he.symm)
    · simp only [deleteFirst, he, if_false]
      intro x hx
      rcases List.mem_cons.mp hx with rfl | hx
      · exact he
      · exact ih hnodup.2 x hx

theorem any_id_eq_true (key : Nat) (l : List Entry) (h : ∃ e ∈ l, e.id = key) :
    l.any (fun e => e.id == key) = true := by
  obtain ⟨e, hm, he⟩ := h
  exact List.any_eq_true.mpr ⟨e, hm, by simpa using he⟩

theorem any_id_eq_false (key : Nat) (l : List Entry) (h : ∀ e ∈ l, e.id ≠ key) :
    l.any (fun e => e.id == key) = false := by
  rw [List.any_eq_false]
  intro e hm
  simpa using h e hm

theorem handlePut_missing (objectId : String → Option Nat) (st : Store) (id status : String)
    (now : Nat) (h : id = "" ∨ status = "") :
    handlePut objectId st id status now = ⟨⟨400, .error "Missing required fields"⟩, st, []⟩ := by
  unfold handlePut
  rcases h with h | h <;> simp [h]

theorem handlePut_invalid (objectId : String → Option Nat) (st : Store) (id status : String)
    (now : Nat) (hid : id ≠ "") (hstatus : status ≠ "") (h : status ∉ validStatuses) :
    handlePut objectId st id status now = ⟨⟨400, .error "Invalid status value"⟩, st, []⟩ := by
  unfold handlePut
  simp [hid, hstatus, h]

theorem handlePut_malformed (objectId : String → Option Nat) (st : Store) (id status : String)
    (now : Nat) (hid : id ≠ "") (hstatus : status ≠ "") (h : status ∈ validStatuses)
    (hkey : objectId id = none) :
    handlePut objectId st id status now = ⟨adminErrorReply, st, []⟩ := by
  unfold handlePut
  simp [hid, hstatus, h, hkey]

theorem handlePut_notFound (objectId : String → Option Nat) (st : Store) (id status : String)
    (now key : Nat) (hid : id ≠ "") (hstatus : status ≠ "") (h : status ∈ validStatuses)
    (hkey : objectId id = some key) (hnone : ∀ e ∈ st.docs, e.id ≠ key) :
    handlePut objectId st id status now =
      ⟨⟨404, .error "Entry not found"⟩, st, [.updateOne]⟩ := by
  unfold handlePut
  simp [hid, hstatus, h, hkey, any_id_eq_false key st.docs hnone]

theorem handlePut_found (objectId : String → Option Nat) (st : Store) (id status : String)
    (now key : Nat) (hid : id ≠ "") (hstatus : status ≠ "") (h : status ∈ validStatuses)
    (hkey : objectId id = some key) (hsome : ∃ e ∈ st.docs, e.id = key) :
    handlePut objectId st id status now =
      ⟨⟨200, .ok "Entry updated"⟩, { st with docs := updateFirst key status now st.docs },
        [.updateOne]⟩ := by
  unfold handlePut
  simp [hid, hstatus, h, hkey, any_id_eq_true key st.docs hsome]

theorem handleDelete_missing (objectId : String → Option Nat) (st : Store) :
    handleDelete objectId st "" = ⟨⟨400, .error "Missing required field: id"⟩, st, []⟩ := by
  unfold handleDelete
  simp

theorem handleDelete_malformed (objectId : String → Option Nat) (st : Store) (id : String)
    (hid : id ≠ "") (hkey : objectId id = none) :
    handleDelete objectId st id = ⟨adminErrorReply, st, []⟩ := by
  unfold handleDelete
  simp [hid, hkey]

theorem handleDelete_notFound (objectId : String → Option Nat) (st : Store) (id : String)
    (key : Nat) (hid : id ≠ "") (hkey : objectId id = some key)
    (hnone : ∀ e ∈ st.docs, e.id ≠ key) :
    handleDelete objectId st id = ⟨⟨404, .error "Entry not found"⟩, st, [.deleteOne]⟩ := by
  unfold handleDelete
  simp [hid, hkey, any_id_eq_false key st.docs hnone]

theorem handleDelete_found (objectId : String → Option Nat) (st : Store) (id : String)
    (key : Nat) (hid : id ≠ "") (hkey : objectId id = some key)
    (hsome : ∃ e ∈ st.docs, e.id = key) :
    handleDelete objectId st id =
      ⟨deletedReply, { st with docs := deleteFirst key st.docs }, [.deleteOne]⟩ := by
  unfold handleDelete
  simp [hid, hkey, any_id_eq_true key st.docs hsome]

/-- Identifiers in a run: distinct, and below the next one the store hands out. -/
theorem run_ids_distinct (objectId : String → Option Nat) :
    ∀ (ops : List Op) (st : Store),
      ((st.docs.map Entry.id).Nodup ∧ ∀ e ∈ st.docs, e.id < st.nextId) →
      (((run objectId st ops).1.docs.map Entry.id).Nodup ∧
        ∀ e ∈ (run objectId st ops).1.docs, e.id < (run objectId st ops).1.nextId) := by
  intro ops
  induction ops with
  | nil => intro st h; exact h
  | cons op rest ih =>
    intro st h
    simp only [run]
    apply ih
    obtain ⟨hnodup, hlt⟩ := h
    cases op with
    | submit d req clock =>
      simp only [step]
      rcases admit_cases d st req clock with ⟨hs, _⟩ | ⟨_, _, _, _, hadm⟩
      · rw [hs]; exact ⟨hnodup, hlt⟩
      · rw [hadm]
        constructor
        · simp only [List.map_append, List.map_cons, List.map_nil]
          rw [List.nodup_append]
          refine ⟨hnodup, List.nodup_singleton _, ?_⟩
          intro a ha hb
          rw [List.mem_singleton] at hb
          obtain ⟨e, hm, rfl⟩ := List.mem_map.mp ha
          have := hlt e hm
          omega
        · intro e he
          rcases List.mem_append.mp he with he | he
          · exact Nat.lt_succ_of_lt (hlt e he)
          · rw [List.mem_singleton] at he
            rw [he]
            exact Nat.lt_succ_self _
    | updateStatus id status now =>
      simp only [step]
      rcases handlePut_store objectId st id status now with hs | ⟨key, _, hs⟩
      · rw [hs]; exact ⟨hnodup, hlt⟩
      · rw [hs]
        refine ⟨by rw [map_id_updateFirst]; exact hnodup, ?_⟩
        intro e he
        have hmem : e.id ∈ (updateFirst key status now st.docs).map Entry.id :=
          List.mem_map.mpr ⟨e, he, rfl⟩
        rw [map_id_updateFirst] at hmem
        obtain ⟨x, hx, hxe⟩ := List.mem_map.mp hmem
        rw [← hxe]
        exact hlt x hx
    | remove id =>
      simp only [step]
      rcases handleDelete_store objectId st id with hs | ⟨key, _, hs⟩
      · rw [hs]; exact ⟨hnodup, hlt⟩
      · rw [hs]
        exact ⟨hnodup.sublist ((deleteFirst_sublist key st.docs).map _),
          fun e he => hlt e ((deleteFirst_sublist key st.docs).subset he)⟩

theorem guarded_of_no_fault (fails : Nat → Bool) (catchReply : Reply) (st : Store)
    (body : Outcome) (h : ∀ k, k < body.ops.length → fails k = false) :
    guarded fails catchReply st body = body := by
  unfold guarded
  have : (List.range body.ops.length).find? (fun k => fails k) = none := by
    rw [List.find?_eq_none]
    intro k hk
    simp [h k (List.mem_range.mp hk)]
  rw [this]

theorem guarded_of_fault (fails : Nat → Bool) (catchReply : Reply) (st : Store)
    (body : Outcome) (h : ∃ k, k < body.ops.length ∧ fails k = true) :
    (guarded fails catchReply st body).reply = catchReply ∧
      (guarded fails catchReply st body).store = st := by
  unfold guarded
  obtain ⟨k, hk, hf⟩ := h
  have hsome : ((List.range body.ops.length).find? (fun k => fails k)).isSome = true := by
    rw [List.find?_isSome]
    exact ⟨k, List.mem_range.mpr hk, hf⟩
  obtain ⟨j, hj⟩ := Option.isSome_iff_exists.mp hsome
  rw [hj]
  exact ⟨rfl, rfl⟩

end Waitlist

/-! ## Facts about dates -/

namespace Waitlist

theorem timeClip_eq_some (t v : Int) :
    timeClip t = some v ↔ (-(maxTime : Int) ≤ t ∧ t ≤ (maxTime : Int)) ∧ v = t := by
  unfold timeClip
  by_cases h : -(maxTime : Int) ≤ t ∧ t ≤ (maxTime : Int)
  · simp only [h, and_self, if_true, Option.some.injEq, true_and]
    exact eq_comm
  · simp [h]

theorem timeClip_of_range (t : Int) (h : -(maxTime : Int) ≤ t ∧ t ≤ (maxTime : Int)) :
    timeClip t = some t :=
  (timeClip_eq_some t t).mpr ⟨h, rfl⟩

theorem msPerDay_eq : (msPerDay : Int) = 86400000 := by decide

theorem maxTime_eq : (maxTime : Int) = 8640000000000000 := by decide

/-- The date before `TimeClip` of `getEstimatedAccessDate`. -/
theorem getEstimatedAccessDate_eq (zone : Zone) (now position : Nat) :
    getEstimatedAccessDate zone now position =
      timeClip ((now : Int) + 7 * ((((position + 99) / 100 : Nat) : Int)) * (msPerDay : Int) +
        (zone.offsetAt (now : Int) -
          zone.offsetOfLocal ((now : Int) + zone.offsetAt (now : Int) +
            7 * ((((position + 99) / 100 : Nat) : Int)) * (msPerDay : Int)))) := by
  unfold getEstimatedAccessDate
  simp only [Nat.cast_mul, Nat.cast_ofNat]
  have h1 : ((((position + 99) / 100 : Nat) : Int)) * 7 * (msPerDay : Int) =
      7 * ((((position + 99) / 100 : Nat) : Int)) * (msPerDay : Int) := by ring
  rw [h1]
  congr 1
  ring

/-- Estimates of the serverless handler in a zone whose offsets are within a day: when the
date for the later position is valid, so is the date for an earlier positive position, and
it lies between the current time and the later date. -/
theorem getEstimatedAccessDate_mono (zone : Zone) (now p q : Nat) (latest : Int)
    (hp : 1 ≤ p) (hpq : p ≤ q)
    (hzone : ∀ x, (-(msPerDay : Int) ≤ zone.offsetAt x ∧ zone.offsetAt x ≤ (msPerDay : Int)) ∧
      (-(msPerDay : Int) ≤ zone.offsetOfLocal x ∧ zone.offsetOfLocal x ≤ (msPerDay : Int)))
    (hvalid : getEstimatedAccessDate zone now q = some latest) :
    ∃ earlier, getEstimatedAccessDate zone now p = some earlier ∧ earlier ≤ latest ∧
      (now : Int) ≤ earlier := by
  rw [getEstimatedAccessDate_eq, timeClip_eq_some] at hvalid
  obtain ⟨⟨_, hmax⟩, hlatest⟩ := hvalid
  rw [getEstimatedAccessDate_eq]
  have hwp : 1 ≤ (p + 99) / 100 := by omega
  have hwpq : (p + 99) / 100 ≤ (q + 99) / 100 := Nat.div_le_div_right (by omega)
  have h0 := (hzone (now : Int)).1
  have hP := (hzone ((now : Int) + zone.offsetAt (now : Int) +
    7 * ((((p + 99) / 100 : Nat) : Int)) * (msPerDay : Int))).2
  have hQ := (hzone ((now : Int) + zone.offsetAt (now : Int) +
    7 * ((((q + 99) / 100 : Nat) : Int)) * (msPerDay : Int))).2
  rw [msPerDay_eq] at h0 hP hQ hmax ⊢
  rw [msPerDay_eq] at hlatest
  rw [maxTime_eq] at hmax
  have hnow : (0 : Int) ≤ (now : Int) := Int.natCast_nonneg now
  have hlow : (now : Int) ≤ (now : Int) + 7 * ((((p + 99) / 100 : Nat) : Int)) * 86400000 +
      (zone.offsetAt (now : Int) -
        zone.offsetOfLocal ((now : Int) + zone.offsetAt (now : Int) +
          7 * ((((p + 99) / 100 : Nat) : Int)) * 86400000)) := by
    omega
  have hle : (now : Int) + 7 * ((((p + 99) / 100 : Nat) : Int)) * 86400000 +
      (zone.offsetAt (now : Int) -
        zone.offsetOfLocal ((now : Int) + zone.offsetAt (now : Int) +
          7 * ((((p + 99) / 100 : Nat) : Int)) * 86400000)) ≤ latest := by
    rw [hlatest]
    rcases Nat.eq_or_lt_of_le hwpq with heq | hlt
    · rw [heq]
    · omega
  refine ⟨_, timeClip_of_range _ ⟨?_, ?_⟩, hle, hlow⟩
  · rw [maxTime_eq]
    omega
  · rw [maxTime_eq]
    omega

theorem estimatedAccessDate_mono (d : Deployment) (zone : Zone) (now p q : Nat) (latest : Int)
    (hp : 1 ≤ p) (hpq : p ≤ q)
    (hzone : ∀ x, (-(msPerDay : Int) ≤ zone.offsetAt x ∧ zone.offsetAt x ≤ (msPerDay : Int)) ∧
      (-(msPerDay : Int) ≤ zone.offsetOfLocal x ∧ zone.offsetOfLocal x ≤ (msPerDay : Int)))
    (hvalid : estimatedAccessDate d zone now q = some latest) :
    ∃ earlier, estimatedAccessDate d zone now p = some earlier ∧ earlier ≤ latest ∧
      (now : Int) ≤ earlier := by
  cases d with
  | serverless => exact getEstimatedAccessDate_mono zone now p q latest hp hpq hzone hvalid
  | express =>
    simp only [estimatedAccessDate] at hvalid ⊢
    refine ⟨latest, hvalid, Int.le_refl _, ?_⟩
    obtain ⟨_, hl⟩ := (timeClip_eq_some _ _).mp hvalid
    rw [hl]
    omega

/-- A range of positions whose estimate is a valid date. -/
theorem getEstimatedAccessDate_valid (zone : Zone) (now q : Nat)
    (hzone : ∀ x, (-(msPerDay : Int) ≤ zone.offsetAt x ∧ zone.offsetAt x ≤ (msPerDay : Int)) ∧
      (-(msPerDay : Int) ≤ zone.offsetOfLocal x ∧ zone.offsetOfLocal x ≤ (msPerDay : Int)))
    (hrange : now + (7 * ((q + 99) / 100) + 2) * msPerDay ≤ maxTime) :
    ∃ v, getEstimatedAccessDate zone now q = some v := by
  rw [getEstimatedAccessDate_eq]
  have h0 := (hzone (now : Int)).1
  have hQ := (hzone ((now : Int) + zone.offsetAt (now : Int) +
    7 * ((((q + 99) / 100 : Nat) : Int)) * (msPerDay : Int))).2
  have hr : (now : Int) + (7 * ((((q + 99) / 100 : Nat) : Int)) + 2) * 86400000 ≤
      8640000000000000 := by
    have : ((now + (7 * ((q + 99) / 100) + 2) * msPerDay : Nat) : Int) ≤ ((maxTime : Nat) : Int) :=
      Int.ofNat_le.mpr hrange
    rw [maxTime_eq] at this
    simp only [Nat.cast_add, Nat.cast_mul, Nat.cast_ofNat] at this
    rw [msPerDay_eq] at this
    exact this
  rw [msPerDay_eq] at h0 hQ ⊢
  have hnow : (0 : Int) ≤ (now : Int) := Int.natCast_nonneg now
  refine ⟨_, timeClip_of_range _ ⟨?_, ?_⟩⟩
  · rw [maxTime_eq]
    omega
  · rw [maxTime_eq]
    omega

end Waitlist

/-! ## The claims -/

namespace Waitlist

/-- C1: a submission whose email and username pass the checks and which conflicts with no
stored entry (no entry with the same email, none with the same handle ignoring case) is
admitted into a store of `N` entries with position `N + 1`, and the store afterwards is the
old one followed by one new entry with that email, the normalized handle, status `pending`,
position `N + 1` and, as source, the referer or `direct` when there is none. -/
theorem admit_fresh_submission (d : Deployment) (st : Store) (req : Submission) (clock : Clock)
    (he : validateEmail req.email = true) (hu : validateUsername req.username = true)
    (hemail : ∀ e ∈ st.docs, e.email ≠ req.email)
    (hhandle : ∀ e ∈ st.docs,
      sameIgnoringCase e.twitterHandle (normalizeHandle req.username) = false) :
    (admitSubmission d st req clock).reply =
        ⟨200, .joined "Thank you for joining our waitlist!" (normalizeHandle req.username)
          (st.docs.length + 1) clock.replyAt
          (estimatedAccessDate d clock.zone clock.estimateAt (st.docs.length + 1))⟩ ∧
      (admitSubmission d st req clock).store.docs =
        st.docs ++ [{ id := st.nextId
                      email := req.email
                      twitterHandle := normalizeHandle req.username
                      joinedAt := clock.entryAt
                      status := "pending"
                      position := st.docs.length + 1
                      source := if req.referer = "" then "direct" else req.referer
                      updatedAt := none }] := by
  rw [normalizeHandle_of_valid _ hu] at hhandle ⊢
  rw [admit_of_fresh d st req clock he hu hemail hhandle]
  exact ⟨rfl, rfl⟩

theorem admit_fresh_submission_witness :
    (admitSubmission .serverless
        ⟨[⟨0, "a@x.com", "alice_1", 1000, "pending", 1, "direct", none⟩], 1⟩
        ⟨"b@x.com", "bob_2", "https://votigram.com/"⟩ ⟨2000, 2001, 2002, Zone.utc⟩).reply =
        ⟨200, .joined "Thank you for joining our waitlist!" "bob_2" 2 2001
          (some (2002 + 7 * msPerDay))⟩ ∧
      (admitSubmission .serverless
        ⟨[⟨0, "a@x.com", "alice_1", 1000, "pending", 1, "direct", none⟩], 1⟩
        ⟨"b@x.com", "bob_2", "https://votigram.com/"⟩ ⟨2000, 2001, 2002, Zone.utc⟩).store.docs =
        [⟨0, "a@x.com", "alice_1", 1000, "pending", 1, "direct", none⟩,
          ⟨1, "b@x.com", "bob_2", 2000, "pending", 2, "https://votigram.com/", none⟩] :=
  admit_fresh_submission .serverless
    ⟨[⟨0, "a@x.com", "alice_1", 1000, "pending", 1, "direct", none⟩], 1⟩
    ⟨"b@x.com", "bob_2", "https://votigram.com/"⟩ ⟨2000, 2001, 2002, Zone.utc⟩
    (by decide) (by decide) (by decide) (by decide)

/-- C2: the username `@alice` satisfies the handle check as the specification words it, yet
the username check of the code refuses it, so the submission is answered with the
invalid-handle reply and nothing is stored, while `alice` is admitted as `alice`; the check of
the code accepts exactly the strings of 3 to 15 characters from `[A-Za-z0-9_]`, no `@`
allowed, and the removal of the `@` that follows it never applies. -/
theorem username_check_refuses_at_sign :
    specValidateHandle "@alice" = true ∧
      validateUsername "@alice" = false ∧
      normalizeHandle "@alice" = "alice" ∧
      admitSubmission .serverless Store.empty ⟨"a@x.com", "@alice", ""⟩ ⟨1000, 1001, 1002, Zone.utc⟩ =
        ⟨invalidHandleReply, Store.empty, []⟩ ∧
      admitSubmission .express Store.empty ⟨"a@x.com", "@alice", ""⟩ ⟨1000, 1001, 1002, Zone.utc⟩ =
        ⟨invalidHandleReply, Store.empty, []⟩ ∧
      (admitSubmission .serverless Store.empty ⟨"a@x.com", "alice", ""⟩ ⟨1000, 1001, 1002, Zone.utc⟩).reply =
        ⟨200, .joined "Thank you for joining our waitlist!" "alice" 1 1001
          (some (1002 + 7 * msPerDay))⟩ ∧
      (∀ u : String, validateUsername u = true ↔
        (3 ≤ u.data.length ∧ u.data.length ≤ 15) ∧ ∀ c ∈ u.data, isHandleChar c = true) ∧
      (∀ u : String, validateUsername u = true → normalizeHandle u = u) := by
  refine ⟨by decide, by decide, by decide, by decide, by decide, by decide, ?_, ?_⟩
  · exact validateUsername_iff
  · exact normalizeHandle_of_valid

/-- C3: the email check accepts a string exactly when it is not empty, holds no white space,
holds exactly one `@`, with a non-empty local part before it, and the domain part after the
`@` holds a `.` with at least one character before it and at least one after it. -/
theorem validateEmail_iff (s : String) :
    validateEmail s = true ↔
      s ≠ "" ∧ (∀ c ∈ s.data, isWhiteSpace c = false) ∧ s.data.count '@' = 1 ∧
        ∃ localPart beforeDot afterDot : List Char,
          s.data = localPart ++ '@' :: (beforeDot ++ '.' :: afterDot) ∧
            localPart ≠ [] ∧ beforeDot ≠ [] ∧ afterDot ≠ [] := by
  rw [validateEmail_eq, Bool.and_eq_true, emailRegex_test_iff]
  have hat : ∀ l : List Char, (∀ c ∈ l, notSpaceAt c = true) → l.count '@' = 0 := by
    intro l hl
    rw [List.count_eq_zero]
    intro hmem
    exact ((notSpaceAt_iff _).mp (hl _ hmem)).2 rfl
  constructor
  · rintro ⟨hne, l, a, b, hs, hl, ha, hb, hla, haa, hba⟩
    refine ⟨?_, ?_, ?_, l, a, b, hs, hl, ha, hb⟩
    · rintro rfl
      simp at hne
    · intro c hc
      rw [hs] at hc
      simp only [List.mem_append, List.mem_cons] at hc
      rcases hc with hc | rfl | hc | rfl | hc
      · exact ((notSpaceAt_iff _).mp (hla c hc)).1
      · decide
      · exact ((notSpaceAt_iff _).mp (haa c hc)).1
      · decide
      · exact ((notSpaceAt_iff _).mp (hba c hc)).1
    · rw [hs]
      simp [List.count_append, List.count_cons, hat l hla, hat a haa, hat b hba]
  · rintro ⟨hne, hws, hcount, l, a, b, hs, hl, ha, hb⟩
    have hne' : (!s.data.isEmpty) = true := by
      rw [hs]
      cases l with
      | nil => exact absurd rfl hl
      | cons c cs => rfl
    refine ⟨hne', l, a, b, hs, hl, ha, hb, ?_⟩
    rw [hs] at hcount hws
    simp only [List.count_append, List.count_cons, beq_self_eq_true, if_true] at hcount
    have h0 : List.count '@' l = 0 ∧ List.count '@' a = 0 ∧ List.count '@' b = 0 := by
      have : (('.' : Char) == '@') = false := by decide
      simp only [this] at hcount
      simp at hcount
      omega
    have mk : ∀ part : List Char, List.count '@' part = 0 →
        (∀ c ∈ part, c ∈ l ++ '@' :: (a ++ '.' :: b)) → ∀ c ∈ part, notSpaceAt c = true := by
      intro part hz hsub c hc
      rw [notSpaceAt_iff]
      refine ⟨hws c (hsub c hc), ?_⟩
      rintro rfl
      exact (List.count_eq_zero.mp hz) hc
    refine ⟨mk l h0.1 ?_, mk a h0.2.1 ?_, mk b h0.2.2 ?_⟩
    · intro c hc
      simp [hc]
    · intro c hc
      simp [hc]
    · intro c hc
      simp [hc]

/-- C4: a submission whose email fails the email check is answered with the invalid-email
reply (status 400, field `email`), whatever the username and the store; no store operation is
issued and the store is unchanged. -/
theorem admit_invalid_email (d : Deployment) (st : Store) (req : Submission) (clock : Clock)
    (h : validateEmail req.email = false) :
    (admitSubmission d st req clock).reply =
        ⟨400, .fieldError "email" "Please provide a valid email address"⟩ ∧
      (admitSubmission d st req clock).ops = [] ∧
      (admitSubmission d st req clock).store = st := by
  rw [admit_checks_failed_email d st req clock h]
  exact ⟨rfl, rfl, rfl⟩

theorem admit_invalid_email_witness :
    validateEmail "not-an-email" = false ∧ validateUsername "ab" = false ∧
      (admitSubmission .express ⟨[⟨0, "a@x.com", "alice_1", 1000, "pending", 1, "direct", none⟩], 1⟩
        ⟨"not-an-email", "ab", ""⟩ ⟨2000, 2001, 2002, Zone.utc⟩).reply =
        ⟨400, .fieldError "email" "Please provide a valid email address"⟩ ∧
      (admitSubmission .express ⟨[⟨0, "a@x.com", "alice_1", 1000, "pending", 1, "direct", none⟩], 1⟩
        ⟨"not-an-email", "ab", ""⟩ ⟨2000, 2001, 2002, Zone.utc⟩).ops = [] ∧
      (admitSubmission .express ⟨[⟨0, "a@x.com", "alice_1", 1000, "pending", 1, "direct", none⟩], 1⟩
        ⟨"not-an-email", "ab", ""⟩ ⟨2000, 2001, 2002, Zone.utc⟩).store =
        ⟨[⟨0, "a@x.com", "alice_1", 1000, "pending", 1, "direct", none⟩], 1⟩ :=
  ⟨by decide, by decide,
    admit_invalid_email .express
      ⟨[⟨0, "a@x.com", "alice_1", 1000, "pending", 1, "direct", none⟩], 1⟩
      ⟨"not-an-email", "ab", ""⟩ ⟨2000, 2001, 2002, Zone.utc⟩ (by decide)⟩

end Waitlist

namespace Waitlist

/-- C5, as stated, fails: after `a@x.com` has joined as `bob_1`, the valid submission
`b@x.com` / `bob_1` is refused as a duplicate handle, so the next valid submission with the
same email, `b@x.com` / `carol_2`, is admitted and not refused as a duplicate email; and in a
store that holds an email twice the pair leaves two entries with that email, not one. -/
theorem same_email_twice_not_always_duplicate :
    (admitSubmission .serverless Store.empty ⟨"a@x.com", "bob_1", ""⟩ ⟨1000, 1001, 1002, Zone.utc⟩).store =
        ⟨[⟨0, "a@x.com", "bob_1", 1000, "pending", 1, "direct", none⟩], 1⟩ ∧
      validateEmail "b@x.com" = true ∧ validateUsername "bob_1" = true ∧
      validateUsername "carol_2" = true ∧
      admitSubmission .serverless ⟨[⟨0, "a@x.com", "bob_1", 1000, "pending", 1, "direct", none⟩], 1⟩
          ⟨"b@x.com", "bob_1", ""⟩ ⟨2000, 2001, 2002, Zone.utc⟩ =
        ⟨duplicateHandleReply,
          ⟨[⟨0, "a@x.com", "bob_1", 1000, "pending", 1, "direct", none⟩], 1⟩,
          [.connect, .findOne, .findOne]⟩ ∧
      (admitSubmission .serverless ⟨[⟨0, "a@x.com", "bob_1", 1000, "pending", 1, "direct", none⟩], 1⟩
          ⟨"b@x.com", "carol_2", ""⟩ ⟨3000, 3001, 3002, Zone.utc⟩).reply =
        ⟨200, .joined "Thank you for joining our waitlist!" "carol_2" 2 3001
          (some (3002 + 7 * msPerDay))⟩ ∧
      (admitSubmission .serverless ⟨[⟨0, "a@x.com", "bob_1", 1000, "pending", 1, "direct", none⟩], 1⟩
          ⟨"b@x.com", "carol_2", ""⟩ ⟨3000, 3001, 3002, Zone.utc⟩).reply ≠ duplicateEmailReply ∧
      admitSubmission .serverless
          ⟨[⟨0, "a@x.com", "bob_1", 1000, "pending", 1, "direct", none⟩,
            ⟨1, "a@x.com", "carol_2", 1500, "pending", 1, "direct", none⟩], 2⟩
          ⟨"a@x.com", "dave_3", ""⟩ ⟨2000, 2001, 2002, Zone.utc⟩ =
        ⟨duplicateEmailReply,
          ⟨[⟨0, "a@x.com", "bob_1", 1000, "pending", 1, "direct", none⟩,
            ⟨1, "a@x.com", "carol_2", 1500, "pending", 1, "direct", none⟩], 2⟩,
          [.connect, .findOne]⟩ ∧
      ([(⟨0, "a@x.com", "bob_1", 1000, "pending", 1, "direct", none⟩ : Entry),
          ⟨1, "a@x.com", "carol_2", 1500, "pending", 1, "direct", none⟩].filter
            (fun e => e.email == "a@x.com")).length = 2 := by
  refine ⟨by decide, by decide, by decide, by decide, by decide, by decide, by decide,
    by decide, by decide⟩

/-- C5, amended: in a store that holds the email at most once, when the first of two
successive valid submissions with the same email is not refused as a duplicate handle, the
second is answered with the duplicate-email reply (status 409, field `email`), issues no
write and leaves the store as it was, with exactly one entry of that email; and after any
sequential run from the empty store no two entries share an email. -/
theorem second_same_email_refused (d d' : Deployment) (st : Store) (s1 s2 : Submission)
    (c1 c2 : Clock) (objectId : String → Option Nat) (ops : List Op)
    (he : validateEmail s1.email = true) (hu1 : validateUsername s1.username = true)
    (hu2 : validateUsername s2.username = true) (hsame : s2.email = s1.email)
    (honce : (st.docs.filter (fun e => e.email == s1.email)).length ≤ 1)
    (hfirst : (admitSubmission d st s1 c1).reply ≠ duplicateHandleReply) :
    ((admitSubmission d' (admitSubmission d st s1 c1).store s2 c2).reply =
        ⟨409, .fieldError "email" "This email is already on our waitlist"⟩ ∧
      (admitSubmission d' (admitSubmission d st s1 c1).store s2 c2).ops = [.connect, .findOne] ∧
      (admitSubmission d' (admitSubmission d st s1 c1).store s2 c2).store = (admitSubmission d st s1 c1).store ∧
      ((admitSubmission d st s1 c1).store.docs.filter (fun e => e.email == s1.email)).length = 1) ∧
    (run objectId Store.empty ops).1.docs.Pairwise (fun a b => a.email ≠ b.email) := by
  refine ⟨?_, run_emails_distinct objectId ops Store.empty List.Pairwise.nil⟩
  have he2 : validateEmail s2.email = true := by rw [hsame]; exact he
  have key : (∃ e ∈ (admitSubmission d st s1 c1).store.docs, e.email = s2.email) ∧
      ((admitSubmission d st s1 c1).store.docs.filter (fun e => e.email == s1.email)).length = 1 := by
    rcases admit_valid_cases d st s1 c1 he hu1 with ⟨⟨e, hm, hee⟩, h⟩ | ⟨_, _, h⟩ | ⟨hfresh, _, h⟩
    · rw [h]
      refine ⟨⟨e, hm, by rw [hsame]; exact hee⟩, ?_⟩
      have hpos : 0 < (st.docs.filter (fun e => e.email == s1.email)).length :=
        List.length_pos_of_mem (List.mem_filter.mpr ⟨hm, by simpa using hee⟩)
      show (st.docs.filter (fun e => e.email == s1.email)).length = 1
      omega
    · rw [h] at hfirst
      exact absurd rfl hfirst
    · rw [h]
      refine ⟨⟨_, List.mem_append_right _ (List.mem_singleton_self _), hsame.symm⟩, ?_⟩
      have hnil : st.docs.filter (fun e => e.email == s1.email) = [] := by
        rw [List.filter_eq_nil_iff]
        intro e hm
        simpa using hfresh e hm
      simp [List.filter_append, hnil]
  rw [admit_of_email_stored d' _ s2 c2 he2 hu2 key.1]
  exact ⟨rfl, rfl, rfl, key.2⟩

theorem second_same_email_refused_witness :
    ((admitSubmission .express
        (admitSubmission .serverless Store.empty ⟨"a@x.com", "alice_1", ""⟩ ⟨1000, 1001, 1002, Zone.utc⟩).store
        ⟨"a@x.com", "bob_2", ""⟩ ⟨2000, 2001, 2002, Zone.utc⟩).reply =
        ⟨409, .fieldError "email" "This email is already on our waitlist"⟩ ∧
      (admitSubmission .express
        (admitSubmission .serverless Store.empty ⟨"a@x.com", "alice_1", ""⟩ ⟨1000, 1001, 1002, Zone.utc⟩).store
        ⟨"a@x.com", "bob_2", ""⟩ ⟨2000, 2001, 2002, Zone.utc⟩).ops = [.connect, .findOne] ∧
      (admitSubmission .express
        (admitSubmission .serverless Store.empty ⟨"a@x.com", "alice_1", ""⟩ ⟨1000, 1001, 1002, Zone.utc⟩).store
        ⟨"a@x.com", "bob_2", ""⟩ ⟨2000, 2001, 2002, Zone.utc⟩).store =
        (admitSubmission .serverless Store.empty ⟨"a@x.com", "alice_1", ""⟩ ⟨1000, 1001, 1002, Zone.utc⟩).store ∧
      ((admitSubmission .serverless Store.empty ⟨"a@x.com", "alice_1", ""⟩
        ⟨1000, 1001, 1002, Zone.utc⟩).store.docs.filter (fun e => e.email == "a@x.com")).length = 1) ∧
    (run hexObjectId Store.empty
      [.submit .serverless ⟨"a@x.com", "alice_1", ""⟩ ⟨1000, 1001, 1002, Zone.utc⟩,
        .submit .express ⟨"a@x.com", "bob_2", ""⟩ ⟨2000, 2001, 2002, Zone.utc⟩]).1.docs.Pairwise
      (fun a b => a.email ≠ b.email) :=
  second_same_email_refused .serverless .express Store.empty
    ⟨"a@x.com", "alice_1", ""⟩ ⟨"a@x.com", "bob_2", ""⟩ ⟨1000, 1001, 1002, Zone.utc⟩ ⟨2000, 2001, 2002, Zone.utc⟩
    hexObjectId
    [.submit .serverless ⟨"a@x.com", "alice_1", ""⟩ ⟨1000, 1001, 1002, Zone.utc⟩,
      .submit .express ⟨"a@x.com", "bob_2", ""⟩ ⟨2000, 2001, 2002, Zone.utc⟩]
    (by decide) (by decide) (by decide) rfl (by decide) (by decide)

/-- C6: once a submission with handle `h1` has been admitted, the next valid submission with
a fresh email and a handle `h2` equal to `h1` ignoring case is answered with the
duplicate-handle reply (status 409, field `username`) and the store, unchanged, holds exactly
one entry of that handle; more generally a valid submission with a fresh email is refused so
whenever the store holds a handle equal to its own ignoring case; a valid submission whose
handle differs, ignoring case, from every stored handle is never answered with the
duplicate-handle reply; the pattern built from a
handle that passed the check matches exactly the strings equal to it ignoring case; and
after any sequential run from the empty store no two entries share a handle ignoring case. -/
theorem handle_clash_ignoring_case (d d' : Deployment) (st : Store) (s1 s2 : Submission)
    (c1 c2 : Clock) (objectId : String → Option Nat) (ops : List Op)
    (hadmitted : (admitSubmission d st s1 c1).reply.status = 200)
    (he2 : validateEmail s2.email = true) (hu2 : validateUsername s2.username = true)
    (hsame : sameIgnoringCase (normalizeHandle s1.username) (normalizeHandle s2.username) = true)
    (hfresh : ∀ e ∈ (admitSubmission d st s1 c1).store.docs, e.email ≠ s2.email) :
    ((admitSubmission d' (admitSubmission d st s1 c1).store s2 c2).reply =
        ⟨409, .fieldError "username" "This Twitter handle is already on our waitlist"⟩ ∧
      (admitSubmission d' (admitSubmission d st s1 c1).store s2 c2).store = (admitSubmission d st s1 c1).store ∧
      ((admitSubmission d st s1 c1).store.docs.filter
        (fun e => sameIgnoringCase e.twitterHandle (normalizeHandle s2.username))).length = 1) ∧
    (∀ (d'' : Deployment) (st' : Store) (req : Submission) (clock : Clock),
      validateEmail req.email = true → validateUsername req.username = true →
      (∀ e ∈ st'.docs, e.email ≠ req.email) →
      (∃ e ∈ st'.docs,
        sameIgnoringCase e.twitterHandle (normalizeHandle req.username) = true) →
      (admitSubmission d'' st' req clock).reply = duplicateHandleReply ∧
        (admitSubmission d'' st' req clock).store = st') ∧
    (∀ (d'' : Deployment) (st' : Store) (req : Submission) (clock : Clock),
      validateUsername req.username = true →
      (∀ e ∈ st'.docs,
        sameIgnoringCase e.twitterHandle (normalizeHandle req.username) = false) →
      (admitSubmission d'' st' req clock).reply ≠ duplicateHandleReply) ∧
    (∀ username : String, validateUsername username = true →
      ∃ pattern, compileHandlePattern (normalizeHandle username).data = some pattern ∧
        ∀ stored : String,
          pattern.test stored.data = sameIgnoringCase stored (normalizeHandle username)) ∧
    (run objectId Store.empty ops).1.docs.Pairwise
      (fun a b => sameIgnoringCase a.twitterHandle b.twitterHandle = false) := by
  refine ⟨?_, ?_, ?_, ?_, run_handles_distinct objectId ops Store.empty List.Pairwise.nil⟩
  · rcases admit_cases d st s1 c1 with ⟨_, hne, _⟩ | ⟨_, hu1, _, hnew, hadm⟩
    · exact absurd hadmitted hne
    · rw [normalizeHandle_of_valid _ hu1, normalizeHandle_of_valid _ hu2] at hsame
      rw [normalizeHandle_of_valid _ hu2]
      have hs := (sameIgnoringCase_iff _ _).mp hsame
      have hcount : ((admitSubmission d st s1 c1).store.docs.filter
          (fun e => sameIgnoringCase e.twitterHandle s2.username)).length = 1 := by
        rw [hadm]
        have hnil : st.docs.filter (fun e => sameIgnoringCase e.twitterHandle s2.username)
            = [] := by
          rw [List.filter_eq_nil_iff]
          intro e hm hc
          have h1 := (sameIgnoringCase_iff _ _).mp hc
          have h2 : sameIgnoringCase e.twitterHandle s1.username = true :=
            (sameIgnoringCase_iff _ _).mpr (h1.trans hs.symm)
          rw [hnew e hm] at h2
          exact absurd h2 (by decide)
        simp [List.filter_append, hnil, hsame]
      have hex : ∃ e ∈ (admitSubmission d st s1 c1).store.docs,
          sameIgnoringCase e.twitterHandle s2.username = true := by
        rw [hadm]
        exact ⟨_, List.mem_append_right _ (List.mem_singleton_self _), hsame⟩
      rw [admit_of_handle_stored d' _ s2 c2 he2 hu2 hfresh hex]
      exact ⟨rfl, rfl, hcount⟩
  · intro d'' st' req clock he hu hfresh' hex
    rw [normalizeHandle_of_valid _ hu] at hex
    rw [admit_of_handle_stored d'' st' req clock he hu hfresh' hex]
    exact ⟨rfl, rfl⟩
  · intro d'' st' req clock hu hnone
    rw [normalizeHandle_of_valid _ hu] at hnone
    cases he : validateEmail req.email with
    | false =>
      rw [admit_checks_failed_email d'' st' req clock he]
      simp [invalidEmailReply, duplicateHandleReply]
    | true =>
      rcases admit_valid_cases d'' st' req clock he hu with ⟨_, h⟩ | ⟨_, ⟨e, hm, hc⟩, _⟩ | ⟨_, _, h⟩
      · rw [h]
        simp [duplicateEmailReply, duplicateHandleReply]
      · rw [hnone e hm] at hc
        exact absurd hc (by decide)
      · rw [h]
        simp [duplicateHandleReply]
  · intro username hu
    rw [normalizeHandle_of_valid _ hu]
    exact ⟨_, compileHandlePattern_of_valid _ hu, fun stored => test_handlePattern _ stored⟩

theorem handle_clash_ignoring_case_witness :
    ((admitSubmission .express
        (admitSubmission .serverless Store.empty ⟨"a@x.com", "Foo_Bar", ""⟩ ⟨1000, 1001, 1002, Zone.utc⟩).store
        ⟨"b@x.com", "foo_bar", ""⟩ ⟨2000, 2001, 2002, Zone.utc⟩).reply =
        ⟨409, .fieldError "username" "This Twitter handle is already on our waitlist"⟩ ∧
      (admitSubmission .express
        (admitSubmission .serverless Store.empty ⟨"a@x.com", "Foo_Bar", ""⟩ ⟨1000, 1001, 1002, Zone.utc⟩).store
        ⟨"b@x.com", "foo_bar", ""⟩ ⟨2000, 2001, 2002, Zone.utc⟩).store =
        (admitSubmission .serverless Store.empty ⟨"a@x.com", "Foo_Bar", ""⟩ ⟨1000, 1001, 1002, Zone.utc⟩).store ∧
      ((admitSubmission .serverless Store.empty ⟨"a@x.com", "Foo_Bar", ""⟩
        ⟨1000, 1001, 1002, Zone.utc⟩).store.docs.filter
        (fun e => sameIgnoringCase e.twitterHandle (normalizeHandle "foo_bar"))).length = 1) ∧
    (admitSubmission .serverless Store.empty ⟨"a@x.com", "Foo_Bar", ""⟩ ⟨1000, 1001, 1002, Zone.utc⟩).store.docs =
      [⟨0, "a@x.com", "Foo_Bar", 1000, "pending", 1, "direct", none⟩] :=
  ⟨(handle_clash_ignoring_case .serverless .express Store.empty
    ⟨"a@x.com", "Foo_Bar", ""⟩ ⟨"b@x.com", "foo_bar", ""⟩ ⟨1000, 1001, 1002, Zone.utc⟩ ⟨2000, 2001, 2002, Zone.utc⟩
    hexObjectId [] (by decide) (by decide) (by decide) (by decide) (by decide)).1, by decide⟩

/-- C7, as stated, fails: admit two entries through the server, remove the first by its
identifier, admit a third; the removal succeeds and the third entry is given position 2,
the position the second already has. -/
theorem position_repeats_after_removal :
    hexObjectId "000000000000000000000000" = some 0 ∧
    (run hexObjectId Store.empty
      [.submit .express ⟨"a@x.com", "alice_1", ""⟩ ⟨1000, 1001, 1002, Zone.utc⟩,
        .submit .express ⟨"b@x.com", "bob_2", ""⟩ ⟨2000, 2001, 2002, Zone.utc⟩,
        .remove "000000000000000000000000",
        .submit .express ⟨"c@x.com", "carol_3", ""⟩ ⟨3000, 3001, 3002, Zone.utc⟩]).2.map Reply.status = [200, 200, 200, 200] ∧
    (run hexObjectId Store.empty
      [.submit .express ⟨"a@x.com", "alice_1", ""⟩ ⟨1000, 1001, 1002, Zone.utc⟩,
        .submit .express ⟨"b@x.com", "bob_2", ""⟩ ⟨2000, 2001, 2002, Zone.utc⟩,
        .remove "000000000000000000000000",
        .submit .express ⟨"c@x.com", "carol_3", ""⟩ ⟨3000, 3001, 3002, Zone.utc⟩]).1.docs =
      [⟨1, "b@x.com", "bob_2", 2000, "pending", 2, "direct", none⟩,
        ⟨2, "c@x.com", "carol_3", 3000, "pending", 2, "direct", none⟩] ∧
    assignedPositions (run hexObjectId Store.empty
      [.submit .express ⟨"a@x.com", "alice_1", ""⟩ ⟨1000, 1001, 1002, Zone.utc⟩,
        .submit .express ⟨"b@x.com", "bob_2", ""⟩ ⟨2000, 2001, 2002, Zone.utc⟩,
        .remove "000000000000000000000000",
        .submit .express ⟨"c@x.com", "carol_3", ""⟩ ⟨3000, 3001, 3002, Zone.utc⟩]).2 = [1, 2, 2] ∧
    ¬ (assignedPositions (run hexObjectId Store.empty
      [.submit .express ⟨"a@x.com", "alice_1", ""⟩ ⟨1000, 1001, 1002, Zone.utc⟩,
        .submit .express ⟨"b@x.com", "bob_2", ""⟩ ⟨2000, 2001, 2002, Zone.utc⟩,
        .remove "000000000000000000000000",
        .submit .express ⟨"c@x.com", "carol_3", ""⟩ ⟨3000, 3001, 3002, Zone.utc⟩]).2).Pairwise (· < ·) := by
  have h : assignedPositions (run hexObjectId Store.empty
      [.submit .express ⟨"a@x.com", "alice_1", ""⟩ ⟨1000, 1001, 1002, Zone.utc⟩,
        .submit .express ⟨"b@x.com", "bob_2", ""⟩ ⟨2000, 2001, 2002, Zone.utc⟩,
        .remove "000000000000000000000000",
        .submit .express ⟨"c@x.com", "carol_3", ""⟩ ⟨3000, 3001, 3002, Zone.utc⟩]).2 = [1, 2, 2] := by
    decide
  refine ⟨by decide, by decide, by decide, h, ?_⟩
  rw [h]
  decide

/-- C7, amended: in every sequential run of admit, updateStatus and remove requests from the
empty store in which no removal succeeds, each admitted entry is given a position strictly
greater than the position of every entry admitted before it. -/
theorem positions_increase_without_removal (objectId : String → Option Nat) (ops : List Op)
    (hno : ∀ r ∈ (run objectId Store.empty ops).2, r ≠ deletedReply) :
    (assignedPositions (run objectId Store.empty ops).2).Pairwise (· < ·) :=
  (run_positions_increase objectId ops Store.empty hno).1

theorem positions_increase_without_removal_witness :
    (assignedPositions (run hexObjectId Store.empty
      [.submit .express ⟨"a@x.com", "alice_1", ""⟩ ⟨1000, 1001, 1002, Zone.utc⟩,
        .remove "0000000000000000000000ff",
        .remove "0",
        .updateStatus "000000000000000000000000" "approved" 1500,
        .submit .express ⟨"b@x.com", "alice_1", ""⟩ ⟨2000, 2001, 2002, Zone.utc⟩,
        .submit .express ⟨"c@x.com", "carol_3", ""⟩ ⟨3000, 3001, 3002, Zone.utc⟩]).2).Pairwise (· < ·) ∧
    (run hexObjectId Store.empty
      [.submit .express ⟨"a@x.com", "alice_1", ""⟩ ⟨1000, 1001, 1002, Zone.utc⟩,
        .remove "0000000000000000000000ff",
        .remove "0",
        .updateStatus "000000000000000000000000" "approved" 1500,
        .submit .express ⟨"b@x.com", "alice_1", ""⟩ ⟨2000, 2001, 2002, Zone.utc⟩,
        .submit .express ⟨"c@x.com", "carol_3", ""⟩ ⟨3000, 3001, 3002, Zone.utc⟩]).2.map Reply.status = [200, 404, 500, 200, 409, 200] ∧
    assignedPositions (run hexObjectId Store.empty
      [.submit .express ⟨"a@x.com", "alice_1", ""⟩ ⟨1000, 1001, 1002, Zone.utc⟩,
        .remove "0000000000000000000000ff",
        .remove "0",
        .updateStatus "000000000000000000000000" "approved" 1500,
        .submit .express ⟨"b@x.com", "alice_1", ""⟩ ⟨2000, 2001, 2002, Zone.utc⟩,
        .submit .express ⟨"c@x.com", "carol_3", ""⟩ ⟨3000, 3001, 3002, Zone.utc⟩]).2 = [1, 2] :=
  ⟨positions_increase_without_removal hexObjectId
    [.submit .express ⟨"a@x.com", "alice_1", ""⟩ ⟨1000, 1001, 1002, Zone.utc⟩,
      .remove "0000000000000000000000ff",
      .remove "0",
      .updateStatus "000000000000000000000000" "approved" 1500,
      .submit .express ⟨"b@x.com", "alice_1", ""⟩ ⟨2000, 2001, 2002, Zone.utc⟩,
      .submit .express ⟨"c@x.com", "carol_3", ""⟩ ⟨3000, 3001, 3002, Zone.utc⟩] (by decide),
    by decide, by decide⟩

/-- C8: in every store reached from the empty store by a sequence of admit, updateStatus and
remove requests with arbitrary arguments, every entry has a status among `pending`,
`approved`, `rejected` and `contacted`; and a submission either leaves the store as it was or
adds one entry, whose status is `pending`. -/
theorem statuses_always_valid (objectId : String → Option Nat) (ops : List Op)
    (d : Deployment) (st : Store) (req : Submission) (clock : Clock) :
    (∀ e ∈ (run objectId Store.empty ops).1.docs,
      e.status = "pending" ∨ e.status = "approved" ∨ e.status = "rejected" ∨
        e.status = "contacted") ∧
    ((admitSubmission d st req clock).store = st ∨
      ∃ e : Entry, e.status = "pending" ∧ (admitSubmission d st req clock).store.docs = st.docs ++ [e]) := by
  constructor
  · intro e he
    have := run_statuses_valid objectId ops Store.empty (by simp [Store.empty]) e he
    simpa [validStatuses] using this
  · rcases admit_cases d st req clock with ⟨hs, _⟩ | ⟨_, _, _, _, hadm⟩
    · exact Or.inl hs
    · right
      rw [hadm]
      exact ⟨_, rfl, rfl⟩

end Waitlist

namespace Waitlist

/-- C9, as stated, fails: for position 2000000000 the serverless handler computes a date
beyond the range of `Date`, an Invalid Date, which is neither at or after the date for
position 1 nor at or after the current time; and on a host whose zone changes its UTC
offset within the week, the date for position 1 is 601200000 ms after the current time,
an hour less than 7 days. -/
theorem estimate_not_always_a_later_date :
    estimatedAccessDate .serverless Zone.utc 1000 1 = some (1000 + 7 * msPerDay) ∧
      estimatedAccessDate .serverless Zone.utc 1000 2000000000 = none ∧
      estimatedAccessDate .serverless Zone.springForward 604800000 1 =
        some (604800000 + 601200000) ∧
      (601200000 : Int) ≠ 7 * msPerDay := by
  refine ⟨by decide, by decide, by decide, by decide⟩

/-- C9, amended: on a host whose UTC offsets are within a day, for a fixed current time and
positions `1 ≤ p ≤ q` such that the estimated access date for `q` is a valid date, the date
for `p` is a valid date too, the same as or earlier than the one for `q` and not earlier
than the current time, in both deployments; so with clock readings taken in order a valid
`estimatedAccessDate` of a reply is not earlier than its `joinedAt` nor than the `joinedAt`
of the stored entry.  The serverless handler moves the local time forward by
`7 * ceil(p / 100)` days: that many times 86400000 ms, corrected by the difference of the
UTC offsets at both ends (none in UTC); the server adds 30 times 86400000 ms.  The date is
valid whenever the current time plus `7 * ceil(q / 100) + 2` days is in the range of `Date`. -/
theorem estimate_monotone (d : Deployment) (zone : Zone) (now p q : Nat) (latest : Int)
    (hp : 1 ≤ p) (hpq : p ≤ q)
    (hzone : ∀ x, (-(msPerDay : Int) ≤ zone.offsetAt x ∧ zone.offsetAt x ≤ (msPerDay : Int)) ∧
      (-(msPerDay : Int) ≤ zone.offsetOfLocal x ∧ zone.offsetOfLocal x ≤ (msPerDay : Int)))
    (hvalid : estimatedAccessDate d zone now q = some latest) :
    (∃ earlier, estimatedAccessDate d zone now p = some earlier ∧ earlier ≤ latest ∧
      (now : Int) ≤ earlier) ∧
    estimatedAccessDate .serverless zone now p =
      timeClip ((now : Int) + 7 * (⌈(p : ℚ) / 100⌉₊ : Int) * (msPerDay : Int) +
        (zone.offsetAt (now : Int) -
          zone.offsetOfLocal ((now : Int) + zone.offsetAt (now : Int) +
            7 * (⌈(p : ℚ) / 100⌉₊ : Int) * (msPerDay : Int)))) ∧
    estimatedAccessDate .serverless Zone.utc now p =
      timeClip ((now : Int) + 7 * (⌈(p : ℚ) / 100⌉₊ : Int) * (msPerDay : Int)) ∧
    estimatedAccessDate .express zone now p = timeClip ((now : Int) + 30 * (msPerDay : Int)) ∧
    (now + (7 * ⌈(q : ℚ) / 100⌉₊ + 2) * msPerDay ≤ maxTime →
      ∃ v, estimatedAccessDate .serverless zone now q = some v) ∧
    (∀ (st : Store) (req : Submission) (clock : Clock) (message handle : String)
        (position joinedAt : Nat) (estimate : Int),
      clock.zone = zone → clock.entryAt ≤ clock.replyAt → clock.replyAt ≤ clock.estimateAt →
      (admitSubmission d st req clock).reply.body =
          .joined message handle position joinedAt (some estimate) →
        (joinedAt : Int) ≤ estimate ∧ (clock.entryAt : Int) ≤ estimate) := by
  have hceil : ∀ n : Nat, (n + 99) / 100 = ⌈(n : ℚ) / 100⌉₊ := by
    intro n
    have := ceil_div_eq n 100 (by decide)
    simpa using this
  refine ⟨estimatedAccessDate_mono d zone now p q latest hp hpq hzone hvalid, ?_, ?_, ?_, ?_, ?_⟩
  · simp only [estimatedAccessDate]
    rw [getEstimatedAccessDate_eq, hceil]
  · simp only [estimatedAccessDate]
    rw [getEstimatedAccessDate_eq, hceil]
    simp [Zone.utc]
  · simp only [estimatedAccessDate]
    rw [msPerDay_eq]
    norm_num
  · intro hrange
    rw [← hceil] at hrange
    exact getEstimatedAccessDate_valid zone now q hzone hrange
  · intro st req clock message handle position joinedAt estimate hz h1 h2 hbody
    rcases admit_cases d st req clock with ⟨_, _, hnone⟩ | ⟨_, _, _, _, hadm⟩
    · simp [Reply.assignedPosition, hbody] at hnone
    · rw [hadm] at hbody
      simp only [Body.joined.injEq] at hbody
      obtain ⟨_, _, _, hj, hest⟩ := hbody
      rw [hz] at hest
      obtain ⟨earlier, he, hle, hge⟩ := estimatedAccessDate_mono d zone clock.estimateAt
        (st.docs.length + 1) (st.docs.length + 1) estimate (by omega) (Nat.le_refl _) hzone hest
      rw [hest] at he
      have : earlier = estimate := (Option.some.inj he).symm
      subst this
      subst hj
      have h1' : (clock.entryAt : Int) ≤ (clock.replyAt : Int) := Int.ofNat_le.mpr h1
      have h2' : (clock.replyAt : Int) ≤ (clock.estimateAt : Int) := Int.ofNat_le.mpr h2
      exact ⟨by omega, by omega⟩

theorem estimate_monotone_witness :
    (∃ earlier, estimatedAccessDate .serverless Zone.springForward 604800000 100 =
        some earlier ∧ earlier ≤ 604800000 + 14 * (msPerDay : Int) - 3600000 ∧
      ((604800000 : Nat) : Int) ≤ earlier) ∧
    estimatedAccessDate .serverless Zone.springForward 604800000 101 =
      some (604800000 + 14 * (msPerDay : Int) - 3600000) ∧
    estimatedAccessDate .serverless Zone.springForward 604800000 100 =
      some (604800000 + 7 * (msPerDay : Int) - 3600000) :=
  ⟨(estimate_monotone .serverless Zone.springForward 604800000 100 101
      (604800000 + 14 * (msPerDay : Int) - 3600000) (by decide) (by decide)
      (fun x => by
        simp only [Zone.springForward]
        refine ⟨?_, ?_⟩ <;> split <;> decide)
      (by decide)).1,
    by decide, by decide⟩

/-- C10: for every store, status filter (none when empty), page at least 1 and limit at
least 1, absent ones standing for 1 and 50, the listing replies with the entries matching
the filter, sorted by `joinedAt` descending, the first `(page - 1) * limit` skipped and at
most `limit` kept, with `total` the number of matching entries and `pages` equal to
`ceil(total / limit)`; a page beyond the last gives no entries and no error; the store is
unchanged; `src/api/admin/list.js` and `handleGet` reply alike. -/
theorem list_page (st : Store) (page limit : Option Nat) (status : String)
    (hpage : ∀ p, page = some p → 1 ≤ p) (hlimit : ∀ l, limit = some l → 1 ≤ l) :
    ∃ sorted : List Entry,
      sorted.Perm (st.docs.filter (fun e => decide (status = "" ∨ e.status = status))) ∧
      sorted.Sorted (fun a b => b.joinedAt ≤ a.joinedAt) ∧
      (handleGet st ⟨page, limit, status⟩).reply =
        ⟨200, .listing
          ((sorted.drop ((page.getD 1 - 1) * limit.getD 50)).take (limit.getD 50))
          (st.docs.filter (fun e => decide (status = "" ∨ e.status = status))).length
          (page.getD 1) (limit.getD 50)
          (some ⌈((st.docs.filter
            (fun e => decide (status = "" ∨ e.status = status))).length : ℚ) /
              ((limit.getD 50 : Nat) : ℚ)⌉₊)⟩ ∧
      ((sorted.drop ((page.getD 1 - 1) * limit.getD 50)).take (limit.getD 50)).length ≤
        limit.getD 50 ∧
      ((st.docs.filter (fun e => decide (status = "" ∨ e.status = status))).length ≤
          (page.getD 1 - 1) * limit.getD 50 →
        (sorted.drop ((page.getD 1 - 1) * limit.getD 50)).take (limit.getD 50) = []) ∧
      (handleGet st ⟨page, limit, status⟩).store = st ∧
      handleGet st ⟨page, limit, status⟩ =
        handleGet st ⟨some (page.getD 1), some (limit.getD 50), status⟩ ∧
      (adminList st ⟨page, limit, status⟩).reply = (handleGet st ⟨page, limit, status⟩).reply ∧
      (adminList st ⟨page, limit, status⟩).store = st := by
  have hp : 1 ≤ page.getD 1 := by
    cases page with
    | none => exact Nat.le_refl 1
    | some p => exact hpage p rfl
  have hl : 1 ≤ limit.getD 50 := by
    cases limit with
    | none => decide
    | some l => exact hlimit l rfl
  have hskip : ¬ (((page.getD 1 : Nat) : Int) - 1) * ((limit.getD 50 : Nat) : Int) < 0 := by
    have h1 : (0 : Int) ≤ ((page.getD 1 : Nat) : Int) - 1 := by omega
    have h2 : (0 : Int) ≤ ((limit.getD 50 : Nat) : Int) := by omega
    exact not_lt.mpr (Int.mul_nonneg h1 h2)
  have htoNat : ((((page.getD 1 : Nat) : Int) - 1) * ((limit.getD 50 : Nat) : Int)).toNat =
      (page.getD 1 - 1) * limit.getD 50 := by
    have h1 : ((page.getD 1 : Nat) : Int) - 1 = ((page.getD 1 - 1 : Nat) : Int) := by omega
    rw [h1, ← Int.natCast_mul, Int.toNat_natCast]
  have hl0 : limit.getD 50 ≠ 0 := by omega
  have hreply : (handleGet st ⟨page, limit, status⟩).reply =
      ⟨200, .listing
        (((sortByJoinedAtDesc (st.docs.filter
          (fun e => decide (status = "" ∨ e.status = status)))).drop
            ((page.getD 1 - 1) * limit.getD 50)).take (limit.getD 50))
        (st.docs.filter (fun e => decide (status = "" ∨ e.status = status))).length
        (page.getD 1) (limit.getD 50)
        (some ⌈((st.docs.filter
          (fun e => decide (status = "" ∨ e.status = status))).length : ℚ) /
            ((limit.getD 50 : Nat) : ℚ)⌉₊)⟩ := by
    simp only [handleGet, hskip, if_false, htoNat, hl0, filter_matchesQuery,
      ceil_div_eq _ _ hl]
  have hstore : (handleGet st ⟨page, limit, status⟩).store = st := by
    simp only [handleGet, hskip, if_false]
  have hperm := sortByJoinedAtDesc_perm
    (st.docs.filter (fun e => decide (status = "" ∨ e.status = status)))
  refine ⟨_, hperm, sortByJoinedAtDesc_sorted _, hreply, ?_, ?_, hstore, ?_, rfl, ?_⟩
  · exact List.length_take_le _ _
  · intro hbeyond
    rw [List.drop_eq_nil_of_le (by rw [hperm.length_eq]; exact hbeyond)]
    exact List.take_nil
  · simp only [handleGet, Option.getD_some]
  · exact hstore

theorem list_page_witness :
    ∃ sorted : List Entry,
      sorted.Perm
        ([(⟨0, "a@x.com", "alice_1", 1000, "approved", 1, "direct", none⟩ : Entry),
          ⟨1, "b@x.com", "bob_2", 3000, "pending", 2, "direct", none⟩,
          ⟨2, "c@x.com", "carol_3", 2000, "approved", 3, "direct", none⟩,
          ⟨3, "d@x.com", "dave_4", 4000, "approved", 4, "direct", none⟩].filter
            (fun e => decide ("approved" = "" ∨ e.status = "approved"))) ∧
      sorted.Sorted (fun a b => b.joinedAt ≤ a.joinedAt) ∧
      (handleGet
        ⟨[⟨0, "a@x.com", "alice_1", 1000, "approved", 1, "direct", none⟩,
          ⟨1, "b@x.com", "bob_2", 3000, "pending", 2, "direct", none⟩,
          ⟨2, "c@x.com", "carol_3", 2000, "approved", 3, "direct", none⟩,
          ⟨3, "d@x.com", "dave_4", 4000, "approved", 4, "direct", none⟩], 4⟩
        ⟨some 2, some 2, "approved"⟩).reply =
        ⟨200, .listing [⟨0, "a@x.com", "alice_1", 1000, "approved", 1, "direct", none⟩]
          3 2 2 (some 2)⟩ :=
  have ⟨sorted, hperm, hsorted, _⟩ := list_page
    ⟨[⟨0, "a@x.com", "alice_1", 1000, "approved", 1, "direct", none⟩,
      ⟨1, "b@x.com", "bob_2", 3000, "pending", 2, "direct", none⟩,
      ⟨2, "c@x.com", "carol_3", 2000, "approved", 3, "direct", none⟩,
      ⟨3, "d@x.com", "dave_4", 4000, "approved", 4, "direct", none⟩], 4⟩
    (some 2) (some 2) "approved"
    (fun p h => by cases h; decide) (fun l h => by cases h; decide)
  ⟨sorted, hperm, hsorted, by decide⟩

end Waitlist

namespace Waitlist

/-- C11, as stated, fails: with a valid status and an id that no entry has, the reply is the
generic server error when the `ObjectId` constructor throws on the id (`xyz`), and the
missing-fields client error when the id is empty, not the not-found reply; and an empty
status is answered with the missing-fields error, not the invalid-status one. -/
theorem updateStatus_unknown_id_not_always_notFound :
    hexObjectId "xyz" = none ∧
      handlePut hexObjectId
          ⟨[⟨0, "a@x.com", "alice_1", 1000, "pending", 1, "direct", none⟩,
            ⟨1, "b@x.com", "bob_2", 2000, "approved", 2, "direct", none⟩], 2⟩
          "xyz" "approved" 5000 =
        ⟨⟨500, .error "An error occurred"⟩,
          ⟨[⟨0, "a@x.com", "alice_1", 1000, "pending", 1, "direct", none⟩,
            ⟨1, "b@x.com", "bob_2", 2000, "approved", 2, "direct", none⟩], 2⟩, []⟩ ∧
      handlePut hexObjectId
          ⟨[⟨0, "a@x.com", "alice_1", 1000, "pending", 1, "direct", none⟩,
            ⟨1, "b@x.com", "bob_2", 2000, "approved", 2, "direct", none⟩], 2⟩
          "" "approved" 5000 =
        ⟨⟨400, .error "Missing required fields"⟩,
          ⟨[⟨0, "a@x.com", "alice_1", 1000, "pending", 1, "direct", none⟩,
            ⟨1, "b@x.com", "bob_2", 2000, "approved", 2, "direct", none⟩], 2⟩, []⟩ ∧
      hexObjectId "000000000000000000000001" = some 1 ∧
      handlePut hexObjectId
          ⟨[⟨0, "a@x.com", "alice_1", 1000, "pending", 1, "direct", none⟩,
            ⟨1, "b@x.com", "bob_2", 2000, "approved", 2, "direct", none⟩], 2⟩
          "000000000000000000000001" "" 5000 =
        ⟨⟨400, .error "Missing required fields"⟩,
          ⟨[⟨0, "a@x.com", "alice_1", 1000, "pending", 1, "direct", none⟩,
            ⟨1, "b@x.com", "bob_2", 2000, "approved", 2, "direct", none⟩], 2⟩, []⟩ := by
  refine ⟨by decide, by decide, by decide, by decide, by decide⟩

/-- C11, amended: for a non-empty id and a non-empty status, `updateStatus` fails with the
invalid-status reply and leaves the store unchanged whenever the status is not one of
`pending`, `approved`, `rejected`, `contacted`, whatever the id; with a valid status and an
id the `ObjectId` constructor reads, it fails with the not-found reply and leaves the store
unchanged when no entry has that id, and otherwise succeeds, the store differing from the
old one only in the status of the targeted entry, now the given value, and its `updatedAt`,
now the current time; an id the constructor throws on gets the generic server error and an
empty id or status the missing-fields error, the store unchanged. -/
theorem updateStatus_outcomes (objectId : String → Option Nat) (st : Store)
    (id status : String) (now : Nat) (hid : id ≠ "") (hstatus : status ≠ "") :
    (status ∉ ["pending", "approved", "rejected", "contacted"] →
      handlePut objectId st id status now =
        ⟨⟨400, .error "Invalid status value"⟩, st, []⟩) ∧
    (status ∈ ["pending", "approved", "rejected", "contacted"] →
      ∀ key, objectId id = some key → (∀ e ∈ st.docs, e.id ≠ key) →
        handlePut objectId st id status now =
          ⟨⟨404, .error "Entry not found"⟩, st, [.updateOne]⟩) ∧
    (status ∈ ["pending", "approved", "rejected", "contacted"] →
      ∀ key, objectId id = some key → (∃ e ∈ st.docs, e.id = key) →
        ∃ pre e post, st.docs = pre ++ e :: post ∧ e.id = key ∧ (∀ x ∈ pre, x.id ≠ key) ∧
          handlePut objectId st id status now =
            ⟨⟨200, .ok "Entry updated"⟩,
              ⟨pre ++ { id := e.id
                        email := e.email
                        twitterHandle := e.twitterHandle
                        joinedAt := e.joinedAt
                        status := status
                        position := e.position
                        source := e.source
                        updatedAt := some now } :: post, st.nextId⟩,
              [.updateOne]⟩) ∧
    (status ∈ ["pending", "approved", "rejected", "contacted"] → objectId id = none →
      handlePut objectId st id status now = ⟨⟨500, .error "An error occurred"⟩, st, []⟩) ∧
    handlePut objectId st "" status now = ⟨⟨400, .error "Missing required fields"⟩, st, []⟩ ∧
    handlePut objectId st id "" now = ⟨⟨400, .error "Missing required fields"⟩, st, []⟩ := by
  refine ⟨?_, ?_, ?_, ?_, ?_, ?_⟩
  · intro h
    exact handlePut_invalid objectId st id status now hid hstatus h
  · intro h key hkey hnone
    exact handlePut_notFound objectId st id status now key hid hstatus h hkey hnone
  · intro h key hkey hsome
    obtain ⟨pre, e, post, hl, he, hpre, hup⟩ := updateFirst_split key status now st.docs hsome
    refine ⟨pre, e, post, hl, he, hpre, ?_⟩
    rw [handlePut_found objectId st id status now key hid hstatus h hkey hsome, hup]
  · intro h hkey
    exact handlePut_malformed objectId st id status now hid hstatus h hkey
  · exact handlePut_missing objectId st "" status now (Or.inl rfl)
  · exact handlePut_missing objectId st id "" now (Or.inr rfl)

theorem updateStatus_outcomes_witness :
    handlePut hexObjectId
        ⟨[⟨0, "a@x.com", "alice_1", 1000, "pending", 1, "direct", none⟩,
          ⟨1, "b@x.com", "bob_2", 2000, "approved", 2, "direct", none⟩], 2⟩
        "000000000000000000000001" "archived" 5000 =
      ⟨⟨400, .error "Invalid status value"⟩,
        ⟨[⟨0, "a@x.com", "alice_1", 1000, "pending", 1, "direct", none⟩,
          ⟨1, "b@x.com", "bob_2", 2000, "approved", 2, "direct", none⟩], 2⟩, []⟩ ∧
    handlePut hexObjectId
        ⟨[⟨0, "a@x.com", "alice_1", 1000, "pending", 1, "direct", none⟩,
          ⟨1, "b@x.com", "bob_2", 2000, "approved", 2, "direct", none⟩], 2⟩
        "0000000000000000000000ff" "approved" 5000 =
      ⟨⟨404, .error "Entry not found"⟩,
        ⟨[⟨0, "a@x.com", "alice_1", 1000, "pending", 1, "direct", none⟩,
          ⟨1, "b@x.com", "bob_2", 2000, "approved", 2, "direct", none⟩], 2⟩, [.updateOne]⟩ ∧
    handlePut hexObjectId
        ⟨[⟨0, "a@x.com", "alice_1", 1000, "pending", 1, "direct", none⟩,
          ⟨1, "b@x.com", "bob_2", 2000, "approved", 2, "direct", none⟩], 2⟩
        "000000000000000000000001" "rejected" 5000 =
      ⟨⟨200, .ok "Entry updated"⟩,
        ⟨[⟨0, "a@x.com", "alice_1", 1000, "pending", 1, "direct", none⟩,
          ⟨1, "b@x.com", "bob_2", 2000, "rejected", 2, "direct", some 5000⟩], 2⟩,
        [.updateOne]⟩ :=
  ⟨(updateStatus_outcomes hexObjectId
      ⟨[⟨0, "a@x.com", "alice_1", 1000, "pending", 1, "direct", none⟩,
        ⟨1, "b@x.com", "bob_2", 2000, "approved", 2, "direct", none⟩], 2⟩
      "000000000000000000000001" "archived" 5000 (by decide) (by decide)).1 (by decide),
    (updateStatus_outcomes hexObjectId
      ⟨[⟨0, "a@x.com", "alice_1", 1000, "pending", 1, "direct", none⟩,
        ⟨1, "b@x.com", "bob_2", 2000, "approved", 2, "direct", none⟩], 2⟩
      "0000000000000000000000ff" "approved" 5000 (by decide) (by decide)).2.1
        (by decide) 255 (by decide) (by decide),
    by decide⟩

/-- C12, as stated, fails: an id that matches no entry is answered with the generic server
error when the `ObjectId` constructor throws on it (`xyz`), and with the missing-field
client error when it is empty, not with the not-found reply. -/
theorem remove_unknown_id_not_always_notFound :
    hexObjectId "xyz" = none ∧
      handleDelete hexObjectId
          ⟨[⟨0, "a@x.com", "alice_1", 1000, "pending", 1, "direct", none⟩,
            ⟨1, "b@x.com", "bob_2", 2000, "approved", 2, "direct", none⟩], 2⟩ "xyz" =
        ⟨⟨500, .error "An error occurred"⟩,
          ⟨[⟨0, "a@x.com", "alice_1", 1000, "pending", 1, "direct", none⟩,
            ⟨1, "b@x.com", "bob_2", 2000, "approved", 2, "direct", none⟩], 2⟩, []⟩ ∧
      handleDelete hexObjectId
          ⟨[⟨0, "a@x.com", "alice_1", 1000, "pending", 1, "direct", none⟩,
            ⟨1, "b@x.com", "bob_2", 2000, "approved", 2, "direct", none⟩], 2⟩ "" =
        ⟨⟨400, .error "Missing required field: id"⟩,
          ⟨[⟨0, "a@x.com", "alice_1", 1000, "pending", 1, "direct", none⟩,
            ⟨1, "b@x.com", "bob_2", 2000, "approved", 2, "direct", none⟩], 2⟩, []⟩ := by
  refine ⟨by decide, by decide, by decide⟩

/-- C12, amended: in a store whose identifiers are distinct, for a non-empty id that the
`ObjectId` constructor reads as the identifier of a stored entry, `remove` succeeds and
leaves the old store minus exactly that entry, and the same `remove` right after it gets the
not-found reply and leaves the store unchanged; `remove` gets the not-found reply for every
non-empty id the constructor reads that matches no entry, the generic server error for an id
the constructor throws on and the missing-field error for an empty id, the store unchanged;
identifiers are distinct in every store a sequential run reaches from the empty store. -/
theorem remove_outcomes (objectId : String → Option Nat) (st : Store) (id : String)
    (key : Nat) (ops : List Op) (hid : id ≠ "") (hkey : objectId id = some key)
    (hsome : ∃ e ∈ st.docs, e.id = key) (hnodup : (st.docs.map Entry.id).Nodup) :
    (∃ pre e post, st.docs = pre ++ e :: post ∧ e.id = key ∧
      (∀ x ∈ pre ++ post, x.id ≠ key) ∧
      handleDelete objectId st id =
        ⟨⟨200, .ok "Entry deleted"⟩, ⟨pre ++ post, st.nextId⟩, [.deleteOne]⟩) ∧
    handleDelete objectId (handleDelete objectId st id).store id =
      ⟨⟨404, .error "Entry not found"⟩, (handleDelete objectId st id).store, [.deleteOne]⟩ ∧
    (∀ (st' : Store) (id' : String) (key' : Nat), id' ≠ "" → objectId id' = some key' →
      (∀ e ∈ st'.docs, e.id ≠ key') →
      handleDelete objectId st' id' =
        ⟨⟨404, .error "Entry not found"⟩, st', [.deleteOne]⟩) ∧
    (∀ (st' : Store) (id' : String), id' ≠ "" → objectId id' = none →
      handleDelete objectId st' id' = ⟨⟨500, .error "An error occurred"⟩, st', []⟩) ∧
    (∀ st' : Store, handleDelete objectId st' "" =
      ⟨⟨400, .error "Missing required field: id"⟩, st', []⟩) ∧
    ((run objectId Store.empty ops).1.docs.map Entry.id).Nodup := by
  have hfound := handleDelete_found objectId st id key hid hkey hsome
  have hgone := deleteFirst_no_id key st.docs hnodup
  refine ⟨?_, ?_, ?_, ?_, ?_, ?_⟩
  · obtain ⟨pre, e, post, hl, he, _, hdel⟩ := deleteFirst_split key st.docs hsome
    refine ⟨pre, e, post, hl, he, ?_, ?_⟩
    · rw [← hdel]
      exact hgone
    · rw [hfound, hdel]
      rfl
  · rw [hfound]
    exact handleDelete_notFound objectId _ id key hid hkey hgone
  · intro st' id' key' hid' hkey' hnone
    exact handleDelete_notFound objectId st' id' key' hid' hkey' hnone
  · intro st' id' hid' hkey'
    exact handleDelete_malformed objectId st' id' hid' hkey'
  · intro st'
    exact handleDelete_missing objectId st'
  · exact (run_ids_distinct objectId ops Store.empty
      ⟨List.nodup_nil, by simp [Store.empty]⟩).1

theorem remove_outcomes_witness :
    handleDelete hexObjectId
        (handleDelete hexObjectId
          ⟨[⟨0, "a@x.com", "alice_1", 1000, "pending", 1, "direct", none⟩,
            ⟨1, "b@x.com", "bob_2", 2000, "approved", 2, "direct", none⟩], 2⟩
          "000000000000000000000000").store "000000000000000000000000" =
      ⟨⟨404, .error "Entry not found"⟩,
        (handleDelete hexObjectId
          ⟨[⟨0, "a@x.com", "alice_1", 1000, "pending", 1, "direct", none⟩,
            ⟨1, "b@x.com", "bob_2", 2000, "approved", 2, "direct", none⟩], 2⟩
          "000000000000000000000000").store, [.deleteOne]⟩ ∧
    handleDelete hexObjectId
        ⟨[⟨0, "a@x.com", "alice_1", 1000, "pending", 1, "direct", none⟩,
          ⟨1, "b@x.com", "bob_2", 2000, "approved", 2, "direct", none⟩], 2⟩
        "000000000000000000000000" =
      ⟨⟨200, .ok "Entry deleted"⟩,
        ⟨[⟨1, "b@x.com", "bob_2", 2000, "approved", 2, "direct", none⟩], 2⟩, [.deleteOne]⟩ :=
  ⟨(remove_outcomes hexObjectId
      ⟨[⟨0, "a@x.com", "alice_1", 1000, "pending", 1, "direct", none⟩,
        ⟨1, "b@x.com", "bob_2", 2000, "approved", 2, "direct", none⟩], 2⟩
      "000000000000000000000000" 0 [] (by decide) (by decide) (by decide) (by decide)).2.1,
    by decide⟩

end Waitlist

namespace Waitlist

/-- C13: when establishing the connection fails, the handler of `src/api/admin/waitlist.js`
(list, updateStatus and remove) sends no reply: the exception leaves the handler uncaught,
`connectToDatabase()` standing outside every `try` block; the handlers of
`src/api/waitlist.js`, `src/server.js` and `src/api/admin/list.js` catch the same failure
and send their fixed server-error reply, as every handler does for a failure of a later
store operation, the store unchanged; without failures the handlers behave as before. -/
theorem connection_failure_escapes_admin_handler :
    adminWaitlistRoute (fun k => k == 0) hexObjectId
        ⟨[⟨0, "a@x.com", "alice_1", 1000, "pending", 1, "direct", none⟩], 1⟩
        (.put "000000000000000000000000" "approved" 5000) =
      .uncaught ⟨[⟨0, "a@x.com", "alice_1", 1000, "pending", 1, "direct", none⟩], 1⟩
        [.connect] ∧
    adminWaitlistRoute (fun k => k == 0) hexObjectId
        ⟨[⟨0, "a@x.com", "alice_1", 1000, "pending", 1, "direct", none⟩], 1⟩
        (.delete "000000000000000000000000") =
      .uncaught ⟨[⟨0, "a@x.com", "alice_1", 1000, "pending", 1, "direct", none⟩], 1⟩
        [.connect] ∧
    adminWaitlistRoute (fun k => k == 0) hexObjectId
        ⟨[⟨0, "a@x.com", "alice_1", 1000, "pending", 1, "direct", none⟩], 1⟩
        (.get ⟨none, none, ""⟩) =
      .uncaught ⟨[⟨0, "a@x.com", "alice_1", 1000, "pending", 1, "direct", none⟩], 1⟩
        [.connect] ∧
    adminListRoute (fun k => k == 0)
        ⟨[⟨0, "a@x.com", "alice_1", 1000, "pending", 1, "direct", none⟩], 1⟩
        ⟨none, none, ""⟩ =
      .replied ⟨⟨500, .error "An error occurred"⟩,
        ⟨[⟨0, "a@x.com", "alice_1", 1000, "pending", 1, "direct", none⟩], 1⟩, [.connect]⟩ ∧
    waitlistRoute (fun k => k == 0) .serverless
        ⟨[⟨0, "a@x.com", "alice_1", 1000, "pending", 1, "direct", none⟩], 1⟩
        ⟨"b@x.com", "bob_2", ""⟩ ⟨2000, 2001, 2002, Zone.utc⟩ =
      .replied ⟨⟨500, .failure
          "An error occurred while processing your request. Please try again later."⟩,
        ⟨[⟨0, "a@x.com", "alice_1", 1000, "pending", 1, "direct", none⟩], 1⟩, [.connect]⟩ ∧
    (∀ (fails : Nat → Bool) (objectId : String → Option Nat) (st : Store)
        (request : AdminRequest), fails 0 = true →
      adminWaitlistRoute fails objectId st request = .uncaught st [.connect]) ∧
    (∀ (fails : Nat → Bool) (d : Deployment) (st : Store) (req : Submission) (clock : Clock),
      ∃ o, waitlistRoute fails d st req clock = .replied o ∧
        ((∃ k, k < (admitSubmission d st req clock).ops.length ∧ fails k = true) →
          o.reply = ⟨500, .failure
            "An error occurred while processing your request. Please try again later."⟩ ∧
            o.store = st)) ∧
    (∀ (fails : Nat → Bool) (st : Store) (q : ListQuery),
      ∃ o, adminListRoute fails st q = .replied o ∧
        ((∃ k, k < (adminList st q).ops.length ∧ fails k = true) →
          o.reply = ⟨500, .error "An error occurred"⟩ ∧ o.store = st)) ∧
    (∀ (fails : Nat → Bool) (objectId : String → Option Nat) (st : Store)
        (id status : String) (now : Nat), fails 0 = false →
      ∃ o, adminWaitlistRoute fails objectId st (.put id status now) = .replied o ∧
        ((∃ k, k < (handlePut objectId st id status now).ops.length ∧ fails (k + 1) = true) →
          o.reply = ⟨500, .error "An error occurred"⟩ ∧ o.store = st)) ∧
    (∀ (fails : Nat → Bool) (objectId : String → Option Nat) (st : Store) (id : String),
      fails 0 = false →
      ∃ o, adminWaitlistRoute fails objectId st (.delete id) = .replied o ∧
        ((∃ k, k < (handleDelete objectId st id).ops.length ∧ fails (k + 1) = true) →
          o.reply = ⟨500, .error "An error occurred"⟩ ∧ o.store = st)) ∧
    (∀ (fails : Nat → Bool) (objectId : String → Option Nat) (st : Store) (q : ListQuery),
      fails 0 = false →
      ∃ o, adminWaitlistRoute fails objectId st (.get q) = .replied o ∧
        ((∃ k, k < (handleGet st q).ops.length ∧ fails (k + 1) = true) →
          o.reply = ⟨500, .error "An error occurred"⟩ ∧ o.store = st)) ∧
    (∀ (d : Deployment) (st : Store) (req : Submission) (clock : Clock),
      waitlistRoute (fun _ => false) d st req clock =
        .replied (admitSubmission d st req clock)) ∧
    (∀ (st : Store) (q : ListQuery),
      adminListRoute (fun _ => false) st q = .replied (adminList st q)) ∧
    (∀ (objectId : String → Option Nat) (st : Store) (id status : String) (now : Nat),
      adminWaitlistRoute (fun _ => false) objectId st (.put id status now) =
        .replied { handlePut objectId st id status now with
          ops := .connect :: (handlePut objectId st id status now).ops }) ∧
    (∀ (objectId : String → Option Nat) (st : Store) (id : String),
      adminWaitlistRoute (fun _ => false) objectId st (.delete id) =
        .replied { handleDelete objectId st id with
          ops := .connect :: (handleDelete objectId st id).ops }) := by
  refine ⟨by decide, by decide, by decide, by decide, by decide, ?_, ?_, ?_, ?_, ?_, ?_,
    ?_, ?_, ?_, ?_⟩
  · intro fails objectId st request h0
    simp [adminWaitlistRoute, h0]
  · intro fails d st req clock
    exact ⟨_, rfl, fun h => guarded_of_fault fails serverErrorReply st _ h⟩
  · intro fails st q
    exact ⟨_, rfl, fun h => guarded_of_fault fails adminErrorReply st _ h⟩
  · intro fails objectId st id status now h0
    refine ⟨_, by simp only [adminWaitlistRoute, h0]; rfl, fun h => ?_⟩
    exact guarded_of_fault (fun k => fails (k + 1)) adminErrorReply st _ h
  · intro fails objectId st id h0
    refine ⟨_, by simp only [adminWaitlistRoute, h0]; rfl, fun h => ?_⟩
    exact guarded_of_fault (fun k => fails (k + 1)) adminErrorReply st _ h
  · intro fails objectId st q h0
    refine ⟨_, by simp only [adminWaitlistRoute, h0]; rfl, fun h => ?_⟩
    exact guarded_of_fault (fun k => fails (k + 1)) adminErrorReply st _ h
  · intro d st req clock
    simp only [waitlistRoute]
    rw [guarded_of_no_fault _ _ _ _ (fun _ _ => rfl)]
  · intro st q
    simp only [adminListRoute]
    rw [guarded_of_no_fault _ _ _ _ (fun _ _ => rfl)]
  · intro objectId st id status now
    simp only [adminWaitlistRoute]
    rw [guarded_of_no_fault _ _ _ _ (fun _ _ => rfl)]
    rfl
  · intro objectId st id
    simp only [adminWaitlistRoute]
    rw [guarded_of_no_fault _ _ _ _ (fun _ _ => rfl)]
    rfl

end Waitlist
